import Mathlib

/-!
Verification of the WAD codec of the wrench modding toolkit
(`src/formats/wad.cpp`): a shallow embedding of the decompressor,
the match finder, the packet encoders, the packet-length helper and
the multi-block compressor driver, together with proofs about them.

Byte buffers are modelled as `List Nat` (each element one octet) together
with an explicit position where the code keeps one.  The `array_stream`
class itself is not part of the sources provided; its read/peek/write
primitives are modelled from the spec (§2 "Byte buffer", §7 error kinds):
a read past the end of the source raises `TruncatedInput`, a peek below
the start of the destination raises `BadLookback`, an input too small to
contain the 16-byte header raises `InvalidParameter`, and writes append
at the end of the buffer (both the decompressor and the stitcher only
ever write at the end, so `pos = buffer.length` throughout and we do not
carry the destination cursor separately).
-/

namespace Wad

/-- Error kinds of the codec, per §7 of the spec.  `outOfFuel` is the
extra marker used by the fuelled loops of this embedding; theorems about
termination show it is never produced with the fuel the code supplies.
`divisionByZero` models the undefined behaviour of the C++ driver when
`thread_count = 0` makes `total_size % min_block_size` divide by zero. -/
inductive WadError where
  | badMagic
  | doubleLiteral
  | truncatedInput
  | badLookback
  | invalidParameter
  | corruptPacket
  | divisionByZero
  | outOfFuel
deriving DecidableEq, Repr

/-- Read one byte at absolute offset `pos`; `array_stream::read8` /
`peek8` with its bounds check (modelled from the spec: reading past the
source end is `TruncatedInput`). -/
def read8 (src : List Nat) (pos : Nat) : Except WadError Nat :=
  if pos < src.length then .ok (src.getD pos 0) else .error .truncatedInput

/-- Read `n` consecutive bytes starting at `pos` (the `copy_bytes` loop
of wad.cpp on the read side; all-or-nothing since a failed read throws). -/
def readBytes (src : List Nat) (pos n : Nat) : Except WadError (List Nat) :=
  if pos + n ≤ src.length then .ok ((src.drop pos).take n) else .error .truncatedInput

/-- wad.cpp `validate_wad`: the first three bytes must be "WAD". -/
def validate_wad (src : List Nat) : Bool :=
  src.getD 0 0 == 0x57 && src.getD 1 0 == 0x41 && src.getD 2 0 == 0x44

/-- Little-endian 32-bit read at `pos` (the `total_size` field of
`wad_header`, bytes 3-6). -/
def readU32LE (src : List Nat) (pos : Nat) : Nat :=
  src.getD pos 0 + src.getD (pos + 1) 0 * 0x100 +
    src.getD (pos + 2) 0 * 0x10000 + src.getD (pos + 3) 0 * 0x1000000

/-- Little-endian 32-bit in-place write at `pos` (`dest.seek(3);
dest.write<uint32_t>(total_size)` of `compress_wad`; the value is
truncated to 32 bits as by the C++ `uint32_t`). -/
def writeU32LE (w : List Nat) (pos n : Nat) : List Nat :=
  (((w.set pos (n % 0x100)).set (pos + 1) (n / 0x100 % 0x100)).set
      (pos + 2) (n / 0x10000 % 0x100)).set (pos + 3) (n / 0x1000000 % 0x100)

/-- The copy loop of the decompressor for match packets
(`dest.write8(dest.peek8(lookback_offset + i))`): byte at a time so that
overlapping copies re-read bytes written moments earlier.  Advancing
`lookback` by one per copied byte is the same as indexing `lookback + i`. -/
def copyLookback (dest : List Nat) (lookback : Nat) : Nat → List Nat
  | 0 => dest
  | n + 1 => copyLookback (dest ++ [dest.getD lookback 0]) (lookback + 1) n

/-- Closed form of `while (q % 0x1000 != 0x10) q++;` : the number of
increments until `q % 0x1000 = 0x10`. -/
def skipToPadBoundary (q : Nat) : Nat :=
  (0x10 + 0x1000 - q % 0x1000) % 0x1000

/-- Closed form of the stitcher's filler loop
`while (dest.pos % 0x2000 != 0x10) dest.write8(0xee);` : the number of
`0xEE` bytes written until `q % 0x2000 = 0x10`. -/
def fillToBlockBoundary (q : Nat) : Nat :=
  (0x10 + 0x2000 - q % 0x2000) % 0x2000

/-- The tiny-literal suffix shared by all non-literal packets
(wad.cpp lines 185-190): the low two bits of the second-to-last byte
consumed give the count of raw bytes copied from source to dest.
That byte was consumed by this very packet, so the `getD` is in bounds. -/
def tinySuffix (src : List Nat) (spos : Nat) (dest : List Nat) :
    Except WadError (Nat × List Nat) := do
  let t := src.getD (spos - 2) 0 % 4
  let data ← readBytes src spos t
  pure (spos + t, dest ++ data)

/-- One iteration of the decompression loop of `decompress_wad_n`
(wad.cpp lines 92-190): reads one packet at `spos` and returns the new
source position and destination buffer.  `dest.pos = dest.length`
throughout, so `dest.pos` is rendered as `dest.length`.  The lookback
offset is computed in `Int` where the C++ wraps `std::size_t`; a final
offset outside the destination is the spec's `BadLookback`. -/
def decompress_wad_step (src : List Nat) (spos : Nat) (dest : List Nat) :
    Except WadError (Nat × List Nat) := do
  let flag ← read8 src spos
  let spos := spos + 1
  if flag < 0x10 then
    -- Literal packet (0x0-0xf).
    let (num_bytes, spos) ←
      if flag ≠ 0 then
        pure (flag + 3, spos)
      else do
        let b ← read8 src spos
        pure (b + 18, spos + 1)
    let data ← readBytes src spos num_bytes
    let spos := spos + num_bytes
    let dest := dest ++ data
    -- "Two literals in a row? Implausible!"
    if spos < src.length ∧ src.getD spos 0 < 0x10 then
      .error .doubleLiteral
    else
      pure (spos, dest)
  else do
    -- All match-family packets share the copy loop and the tiny literal.
    let (bytes_to_copy, lookback, spos) ←
      if flag < 0x20 then do
        -- (0x10-0x1f), "packet type C".
        let (btc, spos) ←
          if flag % 8 ≠ 0 then
            pure (flag % 8, spos)
          else do
            let b ← read8 src spos
            pure (b + 7, spos + 1)
        let b0 ← read8 src spos
        let b1 ← read8 src (spos + 1)
        let spos := spos + 2
        -- (flag_byte & 8) * -0x800 - ((b0 >> 2) + b1 * 0x40)
        let delta : Int := (flag / 8 % 2 : Nat) * (-0x4000) - ((b0 / 4 : Nat) + (b1 : Nat) * 0x40)
        if delta ≠ 0 then
          pure (btc + 2, (dest.length : Int) + delta - 0x4000, spos)
        else if btc ≠ 1 then
          -- Padding detected: skip to the next 0x1000-aligned offset 0x10.
          let spos := spos + skipToPadBoundary spos
          return (spos, dest)
        else
          -- Dummy packet: lookback = dest.pos, copy of 1 is skipped below.
          pure (btc, (dest.length : Int), spos)
      else if flag < 0x40 then do
        -- Big match packet (0x20-0x3f), "packet type B".
        let (btc, spos) ←
          if flag % 32 ≠ 0 then
            pure (flag % 32, spos)
          else do
            let b ← read8 src spos
            pure (b + 0x1f, spos + 1)
        let b1 ← read8 src spos
        let b2 ← read8 src (spos + 1)
        let spos := spos + 2
        pure (btc + 2, (dest.length : Int) - ((b1 / 4 : Nat) + (b2 : Nat) * 0x40) - 1, spos)
      else do
        -- Little match packet (0x40-0xff), "packet type A".
        let b1 ← read8 src spos
        let spos := spos + 1
        pure (flag / 32 + 1, (dest.length : Int) - (b1 : Nat) * 8 - (flag / 4 % 8 : Nat) - 1, spos)
    let dest ←
      if bytes_to_copy ≠ 1 then
        if lookback < 0 ∨ (dest.length : Int) ≤ lookback then
          .error .badLookback
        else
          pure (copyLookback dest lookback.toNat bytes_to_copy)
      else
        pure dest
    tinySuffix src spos dest

/-- The decompression while-loop, fuelled.  Each iteration advances
`spos` by at least one, so fuel `total_size + 1` is always enough. -/
def decompress_wad_loop (src : List Nat) (total_size bytes_to_decompress : Nat) :
    Nat → Nat → List Nat → Except WadError (List Nat)
  | 0, _, _ => .error .outOfFuel
  | fuel + 1, spos, dest =>
    if spos < total_size ∧ (bytes_to_decompress = 0 ∨ dest.length < bytes_to_decompress) then do
      let (spos, dest) ← decompress_wad_step src spos dest
      decompress_wad_loop src total_size bytes_to_decompress fuel spos dest
    else
      .ok dest

/-- wad.cpp `decompress_wad_n`: validate the header, then decode packets
while `src.pos < header.total_size` (and, when `bytes_to_decompress` is
non-zero, while fewer than that many bytes were produced).  Reading the
header leaves the source position at 0x10. -/
def decompress_wad_n (src : List Nat) (bytes_to_decompress : Nat) :
    Except WadError (List Nat) :=
  if src.length < 0x10 then
    .error .invalidParameter
  else if !validate_wad src then
    .error .badMagic
  else
    let total_size := readU32LE src 3
    decompress_wad_loop src total_size bytes_to_decompress (total_size + 1) 0x10 []

/-- wad.cpp `decompress_wad`. -/
def decompress_wad (src : List Nat) : Except WadError (List Nat) :=
  decompress_wad_n src 0

/-- The decoder's pad condition (wad.cpp lines 119-140): flag byte in
0x10-0x1F, the computed offset zero (lookback equal to the destination
position) and a raw length field other than 1. -/
def is_pad_packet (src : List Nat) (spos : Nat) : Prop :=
  let flag := src.getD spos 0
  let e := if flag % 8 = 0 then 1 else 0
  let btc := if flag % 8 = 0 then src.getD (spos + 1) 0 + 7 else flag % 8
  let b0 := src.getD (spos + 1 + e) 0
  let b1 := src.getD (spos + 2 + e) 0
  0x10 ≤ flag ∧ flag < 0x20 ∧
    ((flag / 8 % 2 : Nat) * (-0x4000) - ((b0 / 4 : Nat) + (b1 : Nat) * 0x40) : Int) = 0 ∧
    btc ≠ 1

instance (src : List Nat) (spos : Nat) : Decidable (is_pad_packet src spos) := by
  unfold is_pad_packet
  infer_instance


/-- wad.cpp `get_wad_packet_size`: byte length of the packet starting at
`src`, tiny-literal suffix included.  The block is given as the raw
pointer `src` (modelled as the function from offsets to bytes) plus the
number `bytes_left` of bytes remaining, exactly as in the C++. -/
def get_wad_packet_size (src : Nat → Nat) (bytes_left : Nat) : Except WadError Nat :=
  let flag := src 0
  if flag < 0x10 then
    -- Literal packet (0x0-0xf); no tiny literal inside another literal.
    let size_of_packet := if flag ≠ 0 then 1 + (flag + 3) else 1 + 1 + (src 1 + 18)
    if size_of_packet < bytes_left ∧ src size_of_packet < 0x10 then
      .error .doubleLiteral
    else
      .ok size_of_packet
  else
    let size_of_packet :=
      if flag < 0x20 then
        (if flag % 8 = 0 then 2 else 1) + 2
      else if flag < 0x40 then
        (if flag % 32 = 0 then 2 else 1) + 2
      else
        2
    .ok (size_of_packet + src (size_of_packet - 2) % 4)

/-! ## The compressor (wad.cpp lines 213-547)

The per-block encoder reads the source through a raw byte pointer
(`const uint8_t* src`); the pointer is modelled as the total function
`src : Nat → Nat` from absolute offsets to bytes, as raw memory has no
length.  `compress_wad` itself receives an `array_stream` and passes
`src.buffer.data()` along with positions derived from
`src.buffer.size()`; `compress_wad_list` below instantiates the pointer
with a concrete byte list. -/

/-- wad.cpp `sub_clamped`: clamped subtraction used for the lower bound
of the sliding window. -/
def sub_clamped (lhs rhs : Nat) : Nat :=
  if rhs > lhs then 0 else lhs - rhs

def DO_NOT_INJECT_FLAG : Nat := 0x100

def MAX_MATCH_SIZE : Nat := 0x100
def MAX_LITERAL_SIZE : Nat := 273
def MAX_LITTLE_MATCH_SIZE : Nat := 8
def MAX_BIG_MATCH_SIZE : Nat := 33
def MAX_LITTLE_MATCH_LOOKBACK : Nat := 2048
def MAX_BIGGER_MATCH_LOOKBACK : Nat := 16384

/-- wad.cpp `match_result`. -/
structure match_result where
  literal_size : Nat
  match_offset : Nat
  match_size : Nat
deriving DecidableEq, Repr

/-- The innermost byte-counting loop of `find_match`
(`for(; k < max_match_size; k++) ...`), written as a countdown on the
remaining iterations: returns the final `k`. -/
def count_equal_bytes (src : Nat → Nat) (target j : Nat) : Nat → Nat → Nat
  | 0, k => k
  | c + 1, k => if src (target + k) == src (j + k) then count_equal_bytes src target j c (k + 1) else k

/-- One iteration of the window scan of `find_match`: the 16-bit prefix
filter `*(uint16_t*)&src[j] != *(uint16_t*)&src[target]` compares the two
bytes at `j` and `target` pairwise (little-endian 16-bit loads of bytes);
when it passes (or at end of buffer) the equal bytes are counted and a
match of length at least 3 that beats the best so far replaces it. -/
def find_match_window_body (end_of_buffer : Bool) (src : Nat → Nat)
    (target max_match_size j match_offset match_size : Nat) : Nat × Nat :=
  if end_of_buffer || (src j == src target && src (j + 1) == src (target + 1)) then
    let k0 := if end_of_buffer then 0 else 2
    let k := count_equal_bytes src target j (max_match_size - k0) k0
    if 3 ≤ k ∧ match_size < k then (j, k) else (match_offset, match_size)
  else
    (match_offset, match_size)

/-- The window scan of `find_match` (`for(size_t j = low; j < target; j++)`),
written as a countdown on `target - j`; the current best match is carried
as the pair of arguments `match_offset`, `match_size`. -/
def find_match_window (end_of_buffer : Bool) (src : Nat → Nat) (target max_match_size : Nat) :
    Nat → Nat → Nat → Nat → Nat × Nat
  | 0, _, match_offset, match_size => (match_offset, match_size)
  | c + 1, j, match_offset, match_size =>
    let best := find_match_window_body end_of_buffer src target max_match_size j match_offset match_size
    find_match_window end_of_buffer src target max_match_size c (j + 1) best.1 best.2

/-- The outer loop of `find_match` (`for(size_t i = 0; i < max_literal_size; i++)`),
written as a countdown on the remaining literal budget; breaks as soon as
a match of length at least 3 was recorded, setting `literal_size := i`,
and otherwise returns with the initial `literal_size = max_literal_size`. -/
def find_match_loop (end_of_buffer : Bool) (src : Nat → Nat) (src_pos src_end max_literal_size : Nat) :
    Nat → Nat → Nat → Nat → match_result
  | 0, _, match_offset, match_size => ⟨max_literal_size, match_offset, match_size⟩
  | c + 1, i, match_offset, match_size =>
    let target := src_pos + i
    let low := sub_clamped target MAX_BIGGER_MATCH_LOOKBACK
    let max_match_size :=
      if end_of_buffer then min MAX_MATCH_SIZE (src_end - src_pos - i) else MAX_MATCH_SIZE
    let best := find_match_window end_of_buffer src target max_match_size (target - low) low
      match_offset match_size
    if 3 ≤ best.2 then
      ⟨i, best.1, best.2⟩
    else
      find_match_loop end_of_buffer src src_pos src_end max_literal_size c (i + 1) best.1 best.2

/-- wad.cpp `find_match<end_of_buffer>`: bounded-window longest-match
search returning `(literal_size, match_offset, match_size)`. -/
def find_match (end_of_buffer : Bool) (src : Nat → Nat) (src_pos src_end : Nat) : match_result :=
  let max_literal_size :=
    if end_of_buffer then min MAX_LITERAL_SIZE (src_end - src_pos) else MAX_LITERAL_SIZE
  find_match_loop end_of_buffer src src_pos src_end max_literal_size max_literal_size 0 0 0

def DUMMY_PACKET : List Nat := [0x11, 0, 0]

/-- wad.cpp `encode_match_packet`: returns the grown buffer, the new
`src_pos` and the new `last_flag`.  `dest.pos = dest.length` at entry at
every call site, so `last_flag = dest.buffer[dest.pos]` reads the flag
byte just pushed, rendered as `getD dest.length`.  Bytes pushed through
`char` are truncated mod 0x100 where the value is not already below it.
The callers always satisfy `match_offset < src_pos`, so the `size_t`
subtractions do not wrap. -/
def encode_match_packet (dest : List Nat) (src_pos match_offset match_size : Nat) :
    List Nat × Nat × Nat :=
  let lookback := src_pos - match_offset
  let delta := src_pos - match_offset - 1
  let buf :=
    if match_size ≤ MAX_LITTLE_MATCH_SIZE ∧ lookback ≤ MAX_LITTLE_MATCH_LOOKBACK then
      -- A type
      let pos_major := delta / 8 % 0x100
      let pos_minor := delta % 8
      dest ++ [(match_size - 1) * 32 + pos_minor * 4, pos_major]
    else
      let head :=
        if match_size > MAX_BIG_MATCH_SIZE then
          -- Bigger match
          [32, (match_size - (0x1f + 2)) % 0x100]
        else
          -- Big match
          [32 + (match_size - 2)]
      let pos_minor := delta % 0x40
      let pos_major := delta / 0x40 % 0x100
      dest ++ head ++ [pos_minor * 4, pos_major]
  (buf, src_pos + match_size, buf.getD dest.length 0)

/-- wad.cpp `encode_literal_packet`: returns the grown buffer, the new
`src_pos` and the new `last_flag`.  `pos` tracks `dest.pos`, which equals
the buffer length at entry and is refreshed after each dummy insertion
(`dest.pos = dest.buffer.size()`). -/
def encode_literal_packet (dest : List Nat) (src : Nat → Nat)
    (src_pos last_flag literal_size : Nat) : List Nat × Nat × Nat :=
  -- Two literals in a row? Implausible!
  let (dest, last_flag) :=
    if last_flag < 0x10 then (dest ++ DUMMY_PACKET, 0x11) else (dest, last_flag)
  let pos := dest.length
  if literal_size ≤ 3 then
    -- Stuff the literal into the previous packet's tiny field, pushing a
    -- fresh dummy first when that field is already taken.
    let (dest, pos) :=
      if last_flag = DO_NOT_INJECT_FLAG then
        (dest ++ DUMMY_PACKET, (dest ++ DUMMY_PACKET).length)
      else
        (dest, pos)
    let dest := dest.set (pos - 2) (Nat.lor (dest.getD (pos - 2) 0) literal_size)
    let dest := dest ++ List.map src (List.range' src_pos literal_size)
    (dest, src_pos + literal_size, DO_NOT_INJECT_FLAG)
  else
    let dest :=
      if literal_size ≤ 18 then
        -- We can encode the size in the flag byte.
        dest ++ [literal_size - 3]
      else
        -- We have to push it as a separate byte.
        dest ++ [0, (literal_size - 18) % 0x100]
    let dest := dest ++ List.map src (List.range' src_pos literal_size)
    (dest, src_pos + literal_size, dest.getD pos 0)

/-- The while-loop of `compress_wad_intermediate`, fuelled: one iteration
per `find_match`/encode round.  Each round consumes at least one source
byte, so fuel `src_end - src_pos + 1` is always enough; on exhaustion the
buffer built so far is returned. -/
def compress_wad_intermediate_loop (src : Nat → Nat) (src_end : Nat) :
    Nat → Nat → List Nat → Nat → List Nat
  | 0, _, dest, _ => dest
  | fuel + 1, src_pos, dest, last_flag =>
    if src_pos < src_end then
      let m :=
        if src_pos + MAX_MATCH_SIZE ≥ src_end then
          find_match true src src_pos src_end
        else
          find_match false src src_pos src_end
      if m.literal_size = 0 then
        let (dest, src_pos, last_flag) := encode_match_packet dest src_pos m.match_offset m.match_size
        compress_wad_intermediate_loop src src_end fuel src_pos dest last_flag
      else
        let (dest, src_pos, last_flag) :=
          encode_literal_packet dest src src_pos last_flag m.literal_size
        if m.match_size > 0 then
          let (dest, src_pos, last_flag) :=
            encode_match_packet dest src_pos m.match_offset m.match_size
          compress_wad_intermediate_loop src src_end fuel src_pos dest last_flag
        else
          compress_wad_intermediate_loop src src_end fuel src_pos dest last_flag
    else
      dest

/-- wad.cpp `compress_wad_intermediate`: per-block packet stream for the
slice `[src_pos, src_end)`, starting with `last_flag = DO_NOT_INJECT_FLAG`. -/
def compress_wad_intermediate (src : Nat → Nat) (src_pos src_end : Nat) : List Nat :=
  compress_wad_intermediate_loop src src_end (src_end - src_pos + 1) src_pos [] DO_NOT_INJECT_FLAG

/-- The stitcher's walk over one intermediate block (the inner while-loop
of `compress_wad`, lines 326-368), fuelled; `not_first` is `i != 0` for
the dummy at the block seam.  Each packet is at least two bytes, so fuel
`intermediate.length + 1` is always enough. -/
def stitch_block (intermediate : List Nat) (not_first : Bool) :
    Nat → Nat → List Nat → Except WadError (List Nat)
  | 0, _, _ => .error .outOfFuel
  | fuel + 1, pos, dest =>
    if pos < intermediate.length then do
      let packet_size ←
        get_wad_packet_size (fun k => intermediate.getD (pos + k) 0) (intermediate.length - pos)
      let insert_dummy := not_first ∧ pos = 0
      let insert_size := packet_size + if insert_dummy then 3 else 0
      -- dest.pos is offset 0x10 bytes by the header; every 0x2000 bytes
      -- there must be a pad packet or the game crashes.
      let dest :=
        if (dest.length + 0x1ff0) % 0x2000 + insert_size > 0x2000 - 3 then
          let dest := dest ++ [0x12, 0x0, 0x0]
          dest ++ List.replicate (fillToBlockBoundary dest.length) 0xee
        else
          dest
      let dest := if insert_dummy then dest ++ DUMMY_PACKET else dest
      let dest := dest ++ (intermediate.drop pos).take packet_size
      stitch_block intermediate not_first fuel (pos + packet_size) dest
    else
      .ok dest

/-- The stitcher's outer loop over the per-thread blocks
(`for(int i = 0; i < thread_count; i++)`); `first` records `i = 0`. -/
def stitch_blocks : List (List Nat) → Bool → List Nat → Except WadError (List Nat)
  | [], _, dest => .ok dest
  | b :: rest, first, dest => do
    let dest ← stitch_block b (!first) (b.length + 1) 0 dest
    stitch_blocks rest false dest

/-- The 16-byte header written before stitching, with a zero
`total_size` field: "WAD" 00000000 "WRENCH010". -/
def WAD_HEADER : List Nat :=
  [0x57, 0x41, 0x44, 0x00, 0x00, 0x00, 0x00, 0x57, 0x52, 0x45, 0x4e, 0x43, 0x48, 0x30, 0x31, 0x30]

/-- wad.cpp `compress_wad`: partition the source into per-thread blocks,
encode each independently, stitch the results after the header and patch
the `total_size` field (bytes 3-6) last.  The source is the pointer
`src : Nat → Nat` together with `src.buffer.size() = src_len`.
For `thread_count = 0` the C++ evaluates `total_size % min_block_size`
with `min_block_size = 0` — division by zero, modelled as the dedicated
error; there is no `thread_count` validity check in the code. -/
def compress_wad (src : Nat → Nat) (src_len thread_count : Nat) :
    Except WadError (List Nat) :=
  if thread_count = 0 then
    .error .divisionByZero
  else
    let intermediates :=
      if thread_count = 1 then
        [compress_wad_intermediate src 0 src_len]
      else
        let min_block_size := 0x100 * thread_count
        let total_size := src_len + (min_block_size - src_len % min_block_size)
        let block_size := total_size / thread_count
        (List.range thread_count).map fun i =>
          compress_wad_intermediate src (block_size * i) (min src_len (block_size * (i + 1)))
    do
      let dest ← stitch_blocks intermediates true WAD_HEADER
      let total_size := dest.length
      pure (writeU32LE dest 3 total_size)

/-- `compress_wad` on a concrete byte list: the pointer reads the list
(reads past `src_len` model the unspecified heap bytes the C++ would
read out of bounds there; they are rendered as zero). -/
def compress_wad_list (s : List Nat) (thread_count : Nat) : Except WadError (List Nat) :=
  compress_wad (fun i => s.getD i 0) s.length thread_count

instance {e α : Type} [DecidableEq e] [DecidableEq α] : DecidableEq (Except e α) := fun a b =>
  match a, b with
  | .ok x, .ok y =>
    if h : x = y then .isTrue (by rw [h]) else .isFalse (by intro hh; cases hh; exact h rfl)
  | .error x, .error y =>
    if h : x = y then .isTrue (by rw [h]) else .isFalse (by intro hh; cases hh; exact h rfl)
  | .ok _, .error _ => .isFalse (by intro h; cases h)
  | .error _, .ok _ => .isFalse (by intro h; cases h)

/-- The actual output of `compress([0xAA], 1)`: header (`total_size` 20)
followed by a dummy packet whose second byte carries the tiny-literal
length 1 in its low bits, then the raw byte 0xAA. -/
def singleLiteralOutput : List Nat :=
  [0x57, 0x41, 0x44, 0x14, 0x00, 0x00, 0x00, 0x57, 0x52, 0x45, 0x4e, 0x43, 0x48, 0x30, 0x31, 0x30,
   0x11, 0x01, 0x00, 0xAA]

/-- A hand-crafted stream for the double-literal check: a header with
`total_size` 26 followed by two adjacent 4-byte short-literal packets. -/
def c4Stream : List Nat :=
  [0x57, 0x41, 0x44, 0x1a, 0x00, 0x00, 0x00, 0x57, 0x52, 0x45, 0x4e, 0x43, 0x48, 0x30, 0x31, 0x30,
   0x01, 9, 9, 9, 9, 0x01, 8, 8, 8, 8]

/-! ## Concrete inputs used by counterexamples

`noMatchByte` produces a byte sequence whose two-byte pairs are pairwise
distinct on the range scanned by `find_match` (except one harmless
collision whose extension dies after two bytes), so the match finder
finds nothing within its literal budget. -/

/-- A match-free byte source: even positions carry an increasing counter,
odd positions carry the counter's high byte plus 16. -/
def noMatchByte (i : Nat) : Nat :=
  if i % 2 = 0 then i / 2 % 256 else i / 2 / 256 + 16

/-- The 257-byte incompressible input of the round-trip counterexample. -/
def cexInput : List Nat := (List.range 257).map noMatchByte

/-- The source pointer `compress_wad_list cexInput _` passes to the
encoder: `cexInput`'s bytes, zero beyond them. -/
def cexSrc (i : Nat) : Nat := if i < 257 then noMatchByte i else 0

/-- The literal packet the encoder emits for the 258-byte "literal"
(flag 0, length byte 240 = 258 - 18, then 258 bytes — the last of them
already past the 257-byte input). -/
def cexLitBuf : List Nat := [0, 240] ++ (List.range' 0 258).map cexSrc

/-- The intermediate block stream: the long literal followed by a bigger
match of 256 phantom zero bytes. -/
def cexInterm : List Nat := cexLitBuf ++ [32, 223, 0, 0]

/-- The compressed stream for the counterexample input: header, a
260-byte literal packet, a 4-byte bigger-match packet; 280 bytes. -/
def cexCompressed : List Nat := writeU32LE (WAD_HEADER ++ cexInterm) 3 280

/-! ## Packet-shape predicates for the encoder-output invariant -/

/-- A literal packet chunk as emitted by `encode_literal_packet`: flag
byte `1..0xf` followed by `flag + 3` data bytes, or the long form
`0, n` followed by `n + 18` data bytes.  Literal flag bytes are < 0x10. -/
def LiteralChunk (c : List Nat) : Prop :=
  (∃ f data, 1 ≤ f ∧ f ≤ 0xf ∧ List.length data = f + 3 ∧ c = f :: data) ∨
  (∃ n data, List.length data = n + 18 ∧ c = 0 :: n :: data)

/-- A dummy packet chunk: `0x11, t, 0` with `t ≤ 3` tiny-literal data
bytes after it; `t` is the tiny-literal count OR-ed into the
second-to-last byte of the three-byte packet (zero before injection). -/
def DummyChunk (c : List Nat) : Prop :=
  ∃ t data, t ≤ 3 ∧ List.length data = t ∧ c = 0x11 :: t :: 0 :: data

/-- A pad chunk as emitted by the stitcher: `0x12, 0, 0` followed by the
`0xEE` filler up to the next 8-KiB boundary. -/
def PadChunk (c : List Nat) : Prop :=
  ∃ k, c = 0x12 :: 0x0 :: 0x0 :: List.replicate k 0xee

/-- A match packet chunk as emitted by `encode_match_packet`, tiny
literal possibly injected afterwards: little matches `f, m` with
`0x40 ≤ f < 0x100`, big matches `f, b0, b1` with `0x21 ≤ f ≤ 0x3f`, and
bigger matches `0x20, n, b0, b1`.  The low two bits of the
second-to-last packet byte count the tiny-literal data bytes that
follow.  Every match flag is ≥ 0x20. -/
def MatchChunk (c : List Nat) : Prop :=
  (∃ f m data, 0x40 ≤ f ∧ f < 0x100 ∧ List.length data = f % 4 ∧ c = f :: m :: data) ∨
  (∃ f b0 b1 data, 0x21 ≤ f ∧ f ≤ 0x3f ∧ List.length data = b0 % 4 ∧ c = f :: b0 :: b1 :: data) ∨
  (∃ n b0 b1 data, List.length data = b0 % 4 ∧ c = 0x20 :: n :: b0 :: b1 :: data)

/-- A chunk of the intermediate (pre-stitcher) packet stream. -/
def ChunkOK (c : List Nat) : Prop := LiteralChunk c ∨ DummyChunk c ∨ MatchChunk c

/-- A chunk of the stitched output: an intermediate chunk or a pad. -/
def OutChunk (c : List Nat) : Prop := ChunkOK c ∨ PadChunk c

/-- The packets whose tiny-literal field is still empty, into which
`encode_literal_packet` injects a tiny literal when `last_flag` is
neither a literal flag nor `DO_NOT_INJECT_FLAG`: a fresh dummy or a
fresh match packet. -/
def Injectable (c : List Nat) : Prop :=
  c = [0x11, 0, 0] ∨
  (∃ f m, 0x40 ≤ f ∧ f < 0x100 ∧ f % 4 = 0 ∧ c = [f, m]) ∨
  (∃ f b0 b1, 0x21 ≤ f ∧ f ≤ 0x3f ∧ b0 % 4 = 0 ∧ c = [f, b0, b1]) ∨
  (∃ n b0 b1, b0 % 4 = 0 ∧ c = [0x20, n, b0, b1])

/-- Adjacency constraint of a packet stream: a literal chunk is never
followed by another literal chunk (the next flag byte is ≥ 0x10) — the
decoder's double-literal check would reject the stream otherwise. -/
def chunkRel (a b : List Nat) : Prop := LiteralChunk a → 0x10 ≤ b.getD 0 0

/-- A well-formed intermediate packet stream: every chunk well-shaped,
no literal chunk followed by another literal. -/
def ChunksOK (cs : List (List Nat)) : Prop :=
  (∀ c ∈ cs, ChunkOK c) ∧ List.Chain' chunkRel cs

/-- The encoder invariant tying `last_flag` to the chunk stream built so
far: when `last_flag = DO_NOT_INJECT_FLAG` a tiny literal was just
injected (or the stream is empty) and the last chunk is not a literal;
when `last_flag < 0x10` the last chunk is the literal just emitted;
otherwise the last chunk is a fresh injectable packet whose flag byte is
`last_flag`. -/
def StateOf (c : List Nat) (lf : Nat) : Prop :=
  (lf = DO_NOT_INJECT_FLAG ∧ ¬ LiteralChunk c) ∨
  lf < 0x10 ∨
  (0x10 ≤ lf ∧ lf < DO_NOT_INJECT_FLAG ∧ Injectable c)

/-- The full encoder-state invariant of `compress_wad_intermediate_loop`. -/
def EncInv (dest : List Nat) (lf : Nat) : Prop :=
  (dest = [] ∧ lf = DO_NOT_INJECT_FLAG) ∨
  ∃ cs c, dest = (cs ++ [c]).flatten ∧ ChunksOK (cs ++ [c]) ∧ StateOf c lf

/-- A buffer that splits into a well-formed chunk stream. -/
def BufOK (dest : List Nat) : Prop := ∃ cs, dest = cs.flatten ∧ ChunksOK cs

/-! ## Evaluation lemmas for `find_match` on the counterexample sources -/

theorem count_equal_bytes_all (src : Nat → Nat) (target j : Nat) (c k : Nat)
    (H : ∀ d, k ≤ d → d < k + c → src (target + d) = src (j + d)) :
    count_equal_bytes src target j c k = k + c := by
  induction c generalizing k with
  | zero => simp [count_equal_bytes]
  | succ c ih =>
    rw [count_equal_bytes]
    rw [if_pos (by simp [H k le_rfl (by omega)])]
    rw [ih (k + 1) (fun d h1 h2 => H d (by omega) (by omega))]
    omega

theorem find_match_window_body_skip (src : Nat → Nat) (target mm : Nat) (j mo ms : Nat)
    (H : src j = src target → src (j + 1) = src (target + 1) →
      count_equal_bytes src target j (mm - 2) 2 < 3) :
    find_match_window_body false src target mm j mo ms = (mo, ms) := by
  unfold find_match_window_body
  by_cases h1 : src j = src target ∧ src (j + 1) = src (target + 1)
  · have hk := H h1.1 h1.2
    simp only [h1.1, h1.2, beq_self_eq_true, Bool.and_self, Bool.or_true, if_true,
      Bool.false_eq_true, if_false]
    rw [if_neg (by omega)]
  · have h2 : (src j == src target && src (j + 1) == src (target + 1)) = false := by
      rcases not_and_or.mp h1 with h | h <;> simp [h]
    rw [h2]
    simp

theorem find_match_window_skip (src : Nat → Nat) (target mm : Nat) (c j mo ms : Nat)
    (H : ∀ jj, j ≤ jj → jj < j + c → src jj = src target → src (jj + 1) = src (target + 1) →
      count_equal_bytes src target jj (mm - 2) 2 < 3) :
    find_match_window false src target mm c j mo ms = (mo, ms) := by
  induction c generalizing j with
  | zero => rfl
  | succ c ih =>
    rw [find_match_window]
    rw [find_match_window_body_skip src target mm j mo ms (H j le_rfl (by omega))]
    exact ih (j + 1) (fun jj a b => H jj (by omega) (by omega))

theorem find_match_window_append (eob : Bool) (src : Nat → Nat) (target mm : Nat)
    (c₁ c₂ j mo ms : Nat) :
    find_match_window eob src target mm (c₁ + c₂) j mo ms =
      find_match_window eob src target mm c₂ (j + c₁)
        (find_match_window eob src target mm c₁ j mo ms).1
        (find_match_window eob src target mm c₁ j mo ms).2 := by
  induction c₁ generalizing j mo ms with
  | zero => simp [find_match_window]
  | succ c₁ ih =>
    have h : c₁ + 1 + c₂ = (c₁ + c₂) + 1 := by omega
    have hj : j + (c₁ + 1) = (j + 1) + c₁ := by omega
    rw [h, find_match_window, find_match_window, ih, hj]

theorem find_match_loop_skip (src : Nat → Nat) (p e ml : Nat) (c₁ c₂ i₀ mo ms : Nat)
    (hms : ms < 3)
    (H : ∀ i mo' ms', i₀ ≤ i → i < i₀ + c₁ →
      find_match_window false src (p + i) MAX_MATCH_SIZE
        ((p + i) - sub_clamped (p + i) MAX_BIGGER_MATCH_LOOKBACK)
        (sub_clamped (p + i) MAX_BIGGER_MATCH_LOOKBACK) mo' ms' = (mo', ms')) :
    find_match_loop false src p e ml (c₁ + c₂) i₀ mo ms =
      find_match_loop false src p e ml c₂ (i₀ + c₁) mo ms := by
  induction c₁ generalizing i₀ with
  | zero => rw [Nat.zero_add, Nat.add_zero]
  | succ c₁ ih =>
    have h : c₁ + 1 + c₂ = (c₁ + c₂) + 1 := by omega
    rw [h, find_match_loop]
    simp only [Bool.false_eq_true, if_false]
    rw [H i₀ mo ms le_rfl (by omega)]
    rw [if_neg (by omega)]
    rw [ih (i₀ + 1) (fun i mo' ms' a b => H i mo' ms' (by omega) (by omega))]
    congr 1
    omega

/-- Auxiliary evaluations of `noMatchByte` below 512. -/
theorem noMatchByte_even (i : Nat) (h1 : i % 2 = 0) (h2 : i < 512) :
    noMatchByte i = i / 2 := by
  unfold noMatchByte
  rw [if_pos h1]
  exact Nat.mod_eq_of_lt (by omega)

theorem noMatchByte_odd (i : Nat) (h1 : i % 2 = 1) (h2 : i < 512) :
    noMatchByte i = 16 := by
  unfold noMatchByte
  rw [if_neg (by omega)]
  have h3 : i / 2 / 256 = 0 := by omega
  rw [h3]

/-- On the scanned range, a two-byte pair of `noMatchByte` repeats only at
`(j, target) = (31, 32)`. -/
theorem noMatchByte_pair_unique (target j : Nat) (hj : j < target) (ht : target ≤ 272)
    (h1 : noMatchByte j = noMatchByte target)
    (h2 : noMatchByte (j + 1) = noMatchByte (target + 1)) :
    j = 31 ∧ target = 32 := by
  have hj512 : j < 512 := by omega
  have ht512 : target < 512 := by omega
  rcases Nat.mod_two_eq_zero_or_one j with hj2 | hj2 <;>
    rcases Nat.mod_two_eq_zero_or_one target with ht2 | ht2
  · -- both even: equal counters force j = target
    rw [noMatchByte_even j hj2 hj512, noMatchByte_even target ht2 ht512] at h1
    omega
  · -- j even, target odd: forces j = 32 and target = 31, impossible
    rw [noMatchByte_even j hj2 hj512, noMatchByte_odd target ht2 ht512] at h1
    rw [noMatchByte_odd (j + 1) (by omega) (by omega),
      noMatchByte_even (target + 1) (by omega) (by omega)] at h2
    omega
  · -- j odd, target even: the one collision (31, 32)
    rw [noMatchByte_odd j hj2 hj512, noMatchByte_even target ht2 ht512] at h1
    rw [noMatchByte_even (j + 1) (by omega) (by omega),
      noMatchByte_odd (target + 1) (by omega) (by omega)] at h2
    omega
  · -- both odd: equal counters at j+1, target+1 force j = target
    rw [noMatchByte_even (j + 1) (by omega) (by omega),
      noMatchByte_even (target + 1) (by omega) (by omega)] at h2
    omega

/-- At the one pair collision of `noMatchByte`, the extension stops after
two bytes: no window candidate ever reaches length 3. -/
theorem noMatchByte_pairs (target j : Nat) (hj : j < target) (ht : target ≤ 272)
    (h1 : noMatchByte j = noMatchByte target)
    (h2 : noMatchByte (j + 1) = noMatchByte (target + 1)) :
    count_equal_bytes noMatchByte target j (MAX_MATCH_SIZE - 2) 2 < 3 := by
  obtain ⟨rfl, rfl⟩ := noMatchByte_pair_unique target j hj ht h1 h2
  decide

/-- The match finder away from the end of the buffer ignores `src_end`:
on the match-free source with `p = 0`, `e = 260` it reports a literal of
the full budget 273, not `min 273 (e - p) = 260`. -/
theorem find_match_noMatchByte : find_match false noMatchByte 0 260 = ⟨273, 0, 0⟩ := by
  have hw : ∀ i mo' ms', 0 ≤ i → i < 0 + 273 →
      find_match_window false noMatchByte (0 + i) MAX_MATCH_SIZE
        ((0 + i) - sub_clamped (0 + i) MAX_BIGGER_MATCH_LOOKBACK)
        (sub_clamped (0 + i) MAX_BIGGER_MATCH_LOOKBACK) mo' ms' = (mo', ms') := by
    intro i mo' ms' h0 h273
    have hsc : sub_clamped (0 + i) MAX_BIGGER_MATCH_LOOKBACK = 0 := by
      unfold sub_clamped MAX_BIGGER_MATCH_LOOKBACK
      rw [if_pos (by omega)]
    rw [hsc]
    exact find_match_window_skip _ _ _ _ _ _ _
      (fun jj hj0 hjt ha hb => noMatchByte_pairs (0 + i) jj (by omega) (by omega) ha hb)
  show find_match_loop false noMatchByte 0 260 273 273 0 0 0 = ⟨273, 0, 0⟩
  have h273 : (273 : Nat) = 273 + 0 := rfl
  rw [h273, find_match_loop_skip noMatchByte 0 260 273 273 0 0 0 0 (by omega) hw]
  rfl

theorem cexSrc_lt (i : Nat) (h : i < 257) : cexSrc i = noMatchByte i := by
  unfold cexSrc
  rw [if_pos h]

theorem cexSrc_ge (i : Nat) (h : 257 ≤ i) : cexSrc i = 0 := by
  unfold cexSrc
  rw [if_neg (by omega)]

/-- Below target 258 the window scan on `cexSrc` never reaches a match of
length 3. -/
theorem cexSrc_pairs (target j : Nat) (hj : j < target) (ht : target ≤ 257)
    (h1 : cexSrc j = cexSrc target) (h2 : cexSrc (j + 1) = cexSrc (target + 1)) :
    count_equal_bytes cexSrc target j (MAX_MATCH_SIZE - 2) 2 < 3 := by
  by_cases hsmall : target ≤ 255
  · rw [cexSrc_lt j (by omega), cexSrc_lt target (by omega)] at h1
    rw [cexSrc_lt (j + 1) (by omega), cexSrc_lt (target + 1) (by omega)] at h2
    obtain ⟨rfl, rfl⟩ := noMatchByte_pair_unique target j hj (by omega) h1 h2
    decide
  · have hj512 : j < 512 := by omega
    rcases (by omega : target = 256 ∨ target = 257) with rfl | rfl
    · -- target 256 carries the counter byte 128, which no earlier
      -- position carries
      rw [cexSrc_lt j (by omega), cexSrc_lt 256 (by omega)] at h1
      rcases Nat.mod_two_eq_zero_or_one j with hj2 | hj2
      · rw [noMatchByte_even j hj2 hj512, noMatchByte_even 256 rfl (by omega)] at h1
        omega
      · rw [noMatchByte_odd j hj2 hj512, noMatchByte_even 256 rfl (by omega)] at h1
        omega
    · -- target 257 is the first phantom zero; only position 0 carries a
      -- zero byte and its successor byte is 16, not zero
      rw [cexSrc_lt j (by omega), cexSrc_ge 257 le_rfl] at h1
      have hj0 : j = 0 := by
        rcases Nat.mod_two_eq_zero_or_one j with hj2 | hj2
        · rw [noMatchByte_even j hj2 hj512] at h1
          omega
        · rw [noMatchByte_odd j hj2 hj512] at h1
          omega
      subst hj0
      rw [cexSrc_lt 1 (by omega), cexSrc_ge 258 (by omega)] at h2
      rw [noMatchByte_odd 1 rfl (by omega)] at h2
      omega

set_option maxRecDepth 8192 in
/-- The match finder on the counterexample source: the first 258 targets
find nothing, and target 258 (one byte past the input) finds the
256-byte run of phantom zeros at offset 257 — the encoder will read past
the end of its input. -/
theorem find_match_cexSrc : find_match false cexSrc 0 257 = ⟨258, 257, 256⟩ := by
  have hw : ∀ i mo' ms', 0 ≤ i → i < 0 + 258 →
      find_match_window false cexSrc (0 + i) MAX_MATCH_SIZE
        ((0 + i) - sub_clamped (0 + i) MAX_BIGGER_MATCH_LOOKBACK)
        (sub_clamped (0 + i) MAX_BIGGER_MATCH_LOOKBACK) mo' ms' = (mo', ms') := by
    intro i mo' ms' h0 h258
    have hsc : sub_clamped (0 + i) MAX_BIGGER_MATCH_LOOKBACK = 0 := by
      unfold sub_clamped MAX_BIGGER_MATCH_LOOKBACK
      rw [if_pos (by omega)]
    rw [hsc]
    exact find_match_window_skip _ _ _ _ _ _ _
      (fun jj hj0 hjt ha hb => cexSrc_pairs (0 + i) jj (by omega) (by omega) ha hb)
  show find_match_loop false cexSrc 0 257 273 273 0 0 0 = ⟨258, 257, 256⟩
  have h273 : (273 : Nat) = 258 + 15 := rfl
  rw [h273, find_match_loop_skip cexSrc 0 257 273 258 15 0 0 0 (by omega) hw]
  have h15 : (15 : Nat) = 14 + 1 := rfl
  rw [h15, find_match_loop]
  have hwin : find_match_window false cexSrc (0 + 258) MAX_MATCH_SIZE
      ((0 + 258) - sub_clamped (0 + 258) MAX_BIGGER_MATCH_LOOKBACK)
      (sub_clamped (0 + 258) MAX_BIGGER_MATCH_LOOKBACK) 0 0 = (257, 256) := by
    decide
  simp only [Bool.false_eq_true, if_false, hwin]
  norm_num

/-! ## Evaluation of the compressor on the counterexample input -/

theorem cex_encode_literal :
    encode_literal_packet [] cexSrc 0 DO_NOT_INJECT_FLAG 258 = (cexLitBuf, 258, 0) := by
  simp [encode_literal_packet, DO_NOT_INJECT_FLAG, cexLitBuf]

theorem cex_encode_match (d : List Nat) :
    encode_match_packet d 258 257 256 =
      (d ++ [32, 223, 0, 0], 514, (d ++ [32, 223, 0, 0]).getD d.length 0) := by
  simp [encode_match_packet, MAX_LITTLE_MATCH_SIZE, MAX_LITTLE_MATCH_LOOKBACK, MAX_BIG_MATCH_SIZE]

set_option maxRecDepth 4000 in
theorem cex_interm : compress_wad_intermediate cexSrc 0 257 = cexInterm := by
  unfold compress_wad_intermediate
  rw [show (257 - 0 + 1 : Nat) = 257 + 1 from rfl, compress_wad_intermediate_loop]
  rw [if_pos (by norm_num)]
  rw [if_neg (by norm_num [MAX_MATCH_SIZE] : ¬(0 + MAX_MATCH_SIZE ≥ 257))]
  rw [find_match_cexSrc]
  norm_num
  rw [cex_encode_literal]
  norm_num
  rw [cex_encode_match]
  norm_num
  rw [show (257 : Nat) = 256 + 1 from rfl, compress_wad_intermediate_loop]
  rw [if_neg (by norm_num)]
  rw [cexInterm]

set_option maxRecDepth 8000 in
theorem cex_compress : compress_wad cexSrc 257 1 = .ok cexCompressed := by
  unfold compress_wad
  rw [if_neg (by norm_num), if_pos rfl, cex_interm]
  rfl

set_option maxRecDepth 8000 in
theorem cex_decompress :
    ((Except.ok cexCompressed : Except WadError (List Nat)).bind decompress_wad).map
      List.length = .ok 514 := by
  rfl

theorem cex_list_eq : compress_wad_list cexInput 1 = compress_wad cexSrc 257 1 := by
  unfold compress_wad_list
  have hlen : cexInput.length = 257 := by simp [cexInput]
  have hfn : (fun i => cexInput.getD i 0) = cexSrc := by
    funext i
    unfold cexInput cexSrc
    by_cases h : i < 257
    · rw [if_pos h]
      rw [List.getD_eq_getElem?_getD, List.getElem?_map, List.getElem?_range h]
      rfl
    · rw [if_neg h]
      rw [List.getD_eq_getElem?_getD, List.getElem?_eq_none (by simpa using by omega)]
      rfl
  rw [hlen, hfn]

/-- If the outer loop of `find_match` never records a match (the
returned `match_size` is zero), it never breaks, so the `literal_size`
it returns is the initial full budget. -/
theorem find_match_loop_no_match (eob : Bool) (src : Nat → Nat) (p e ml : Nat)
    (c i mo ms : Nat)
    (h : (find_match_loop eob src p e ml c i mo ms).match_size = 0) :
    (find_match_loop eob src p e ml c i mo ms).literal_size = ml := by
  induction c generalizing i mo ms with
  | zero => rfl
  | succ c ih =>
    rw [find_match_loop] at h ⊢
    by_cases hb : 3 ≤ (find_match_window eob src (p + i)
        (if eob then min MAX_MATCH_SIZE (e - p - i) else MAX_MATCH_SIZE)
        (p + i - sub_clamped (p + i) MAX_BIGGER_MATCH_LOOKBACK)
        (sub_clamped (p + i) MAX_BIGGER_MATCH_LOOKBACK) mo ms).2
    · rw [if_pos hb] at h
      dsimp only at h
      exact absurd h (by omega)
    · rw [if_neg hb] at h ⊢
      exact ih _ _ _ h

theorem ok_bind {e a b : Type} (x : a) (f : a → Except e b) :
    (Except.ok x : Except e a) >>= f = f x := rfl

theorem error_bind {e a b : Type} (x : e) (f : a → Except e b) :
    (Except.error x : Except e a) >>= f = .error x := rfl

theorem pure_ok {e a : Type} (x : a) : (pure x : Except e a) = .ok x := rfl

/-! ## Length bookkeeping for the stitcher and the header patch -/

theorem stitch_block_length_le (intermediate : List Nat) (nf : Bool) :
    ∀ (fuel pos : Nat) (dest d : List Nat),
      stitch_block intermediate nf fuel pos dest = .ok d → dest.length ≤ d.length := by
  intro fuel
  induction fuel with
  | zero => intro pos dest d h; cases h
  | succ fuel ih =>
    intro pos dest d h
    rw [stitch_block] at h
    by_cases hp : pos < intermediate.length
    · rw [if_pos hp] at h
      rcases hg : get_wad_packet_size (fun k => intermediate.getD (pos + k) 0)
          (intermediate.length - pos) with e | ps
      · rw [hg, error_bind] at h
        cases h
      · rw [hg, ok_bind] at h
        refine le_trans ?_ (ih _ _ _ h)
        repeat' split
        all_goals simp
    · rw [if_neg hp] at h
      cases h
      simp

theorem stitch_blocks_length_le :
    ∀ (bs : List (List Nat)) (f : Bool) (dest d : List Nat),
      stitch_blocks bs f dest = .ok d → dest.length ≤ d.length := by
  intro bs
  induction bs with
  | nil => intro f dest d h; cases h; simp
  | cons b rest ih =>
    intro f dest d h
    rw [stitch_blocks] at h
    rcases hb : stitch_block b (!f) (b.length + 1) 0 dest with e | d1
    · rw [hb, error_bind] at h
      cases h
    · rw [hb, ok_bind] at h
      exact le_trans (stitch_block_length_le b (!f) _ _ _ _ hb) (ih _ _ _ h)


theorem getD_set_self (l : List Nat) (i a : Nat) (h : i < l.length) :
    (l.set i a).getD i 0 = a := by
  rw [List.getD_eq_getElem?_getD, List.getElem?_set_self (by omega)]
  rfl

theorem getD_set_ne (l : List Nat) (i j a : Nat) (h : i ≠ j) :
    (l.set i a).getD j 0 = l.getD j 0 := by
  rw [List.getD_eq_getElem?_getD, List.getElem?_set_ne h, ← List.getD_eq_getElem?_getD]

theorem writeU32LE_length (w : List Nat) (pos n : Nat) :
    (writeU32LE w pos n).length = w.length := by
  simp [writeU32LE]

theorem readU32LE_writeU32LE (w : List Nat) (n : Nat) (h7 : 7 ≤ w.length) (h32 : n < 2 ^ 32) :
    readU32LE (writeU32LE w 3 n) 3 = n := by
  unfold readU32LE writeU32LE
  rw [getD_set_ne _ _ _ _ (by omega), getD_set_ne _ _ _ _ (by omega),
    getD_set_ne _ _ _ _ (by omega), getD_set_self _ _ _ (by simpa using by omega)]
  rw [getD_set_ne _ _ _ _ (by omega), getD_set_ne _ _ _ _ (by omega),
    getD_set_self _ _ _ (by simpa using by omega)]
  rw [getD_set_ne _ _ _ _ (by omega), getD_set_self _ _ _ (by simpa using by omega)]
  rw [getD_set_self _ _ _ (by simpa using by omega)]
  omega


theorem bind_pure_ok_shape (x : Except WadError (List Nat)) (f : List Nat → List Nat)
    (w : List Nat) (h : (x >>= fun dest => pure (f dest)) = .ok w) :
    ∃ d, x = .ok d ∧ w = f d := by
  cases x with
  | error e => rw [error_bind] at h; cases h
  | ok d =>
    rw [ok_bind, pure_ok] at h
    cases h
    exact ⟨d, rfl, rfl⟩

theorem gwps_ok_ge_two (src : Nat → Nat) (bytes_left n : Nat)
    (h : get_wad_packet_size src bytes_left = .ok n) : 2 ≤ n := by
  unfold get_wad_packet_size at h
  dsimp only at h
  split_ifs at h with h1 h2 h3 h4 h5 <;> cases h <;> omega

theorem gwps_error_double (src : Nat → Nat) (bytes_left : Nat) (e : WadError)
    (h : get_wad_packet_size src bytes_left = .error e) : e = .doubleLiteral := by
  unfold get_wad_packet_size at h
  dsimp only at h
  split_ifs at h <;> cases h <;> rfl

theorem stitch_block_no_fuel_exhaustion (intermediate : List Nat) (nf : Bool) :
    ∀ (fuel pos : Nat) (dest : List Nat), intermediate.length - pos < fuel →
      stitch_block intermediate nf fuel pos dest ≠ .error .outOfFuel := by
  intro fuel
  induction fuel with
  | zero => intro pos dest h; omega
  | succ fuel ih =>
    intro pos dest h
    rw [stitch_block]
    by_cases hp : pos < intermediate.length
    · rw [if_pos hp]
      rcases hg : get_wad_packet_size (fun k => intermediate.getD (pos + k) 0)
          (intermediate.length - pos) with e | ps
      · rw [error_bind]
        intro hc
        injection hc with hc
        exact absurd (gwps_error_double _ _ _ hg) (by rw [hc]; intro hx; cases hx)
      · rw [ok_bind]
        have hps := gwps_ok_ge_two _ _ _ hg
        exact ih (pos + ps) _ (by omega)
    · rw [if_neg hp]
      intro hc
      cases hc

theorem tinySuffix_ok_spos (src : List Nat) (sposA : Nat) (d0 : List Nat)
    (spos2 : Nat) (dest2 : List Nat)
    (hok : tinySuffix src sposA d0 = .ok (spos2, dest2)) :
    spos2 = sposA + src.getD (sposA - 2) 0 % 4 := by
  unfold tinySuffix at hok
  dsimp only at hok
  rcases h : readBytes src sposA (src.getD (sposA - 2) 0 % 4) with e | data
  · rw [h, error_bind] at hok
    cases hok
  · rw [h, ok_bind, pure_ok] at hok
    cases hok
    rfl

/-! ## Basic facts about chunk shapes -/

theorem literalChunk_head (c : List Nat) (h : LiteralChunk c) : c.getD 0 0 < 0x10 := by
  rcases h with ⟨f, data, h1, h2, h3, rfl⟩ | ⟨n, data, h1, rfl⟩
  · simpa using by omega
  · simp

theorem dummyChunk_head (c : List Nat) (h : DummyChunk c) : c.getD 0 0 = 0x11 := by
  rcases h with ⟨t, data, h1, h2, rfl⟩
  rfl

theorem padChunk_head (c : List Nat) (h : PadChunk c) : c.getD 0 0 = 0x12 := by
  rcases h with ⟨k, rfl⟩
  rfl

theorem matchChunk_head (c : List Nat) (h : MatchChunk c) :
    0x20 ≤ c.getD 0 0 ∧ c.getD 0 0 < 0x100 := by
  rcases h with ⟨f, m, data, h1, h2, h3, rfl⟩ | ⟨f, b0, b1, data, h1, h2, h3, rfl⟩ |
    ⟨n, b0, b1, data, h1, rfl⟩
  · simpa using by omega
  · simpa using by omega
  · simp

theorem not_literal_of_head (c : List Nat) (h : 0x10 ≤ c.getD 0 0) : ¬ LiteralChunk c :=
  fun hl => absurd (literalChunk_head c hl) (by omega)

theorem injectable_head (c : List Nat) (h : Injectable c) :
    0x10 ≤ c.getD 0 0 := by
  rcases h with rfl | ⟨f, m, h1, h2, h3, rfl⟩ | ⟨f, b0, b1, h1, h2, h3, rfl⟩ |
    ⟨n, b0, b1, h1, rfl⟩
  · simp
  · simpa using by omega
  · simpa using by omega
  · simp

theorem injectable_length (c : List Nat) (h : Injectable c) : 2 ≤ c.length := by
  rcases h with rfl | ⟨f, m, h1, h2, h3, rfl⟩ | ⟨f, b0, b1, h1, h2, h3, rfl⟩ |
    ⟨n, b0, b1, h1, rfl⟩ <;> simp

theorem chunkOK_ne_nil (c : List Nat) (h : ChunkOK c) : c ≠ [] := by
  rcases h with (⟨f, data, h1, h2, h3, rfl⟩ | ⟨n, data, h1, rfl⟩) | ⟨t, data, h1, h2, rfl⟩ |
    (⟨f, m, data, h1, h2, h3, rfl⟩ | ⟨f, b0, b1, data, h1, h2, h3, rfl⟩ |
      ⟨n, b0, b1, data, h1, rfl⟩) <;> simp

theorem dummy_packet_chunk : DummyChunk [0x11, 0, 0] :=
  ⟨0, [], by omega, rfl, rfl⟩

/-! ## Chunk-stream combinators -/

theorem chunksOK_nil : ChunksOK [] := ⟨by simp, List.chain'_nil⟩

theorem chunksOK_append_one (cs : List (List Nat)) (c : List Nat)
    (h : ChunksOK cs) (hc : ChunkOK c)
    (hrel : ∀ a, cs.getLast? = some a → chunkRel a c) :
    ChunksOK (cs ++ [c]) := by
  constructor
  · intro x hx
    rcases List.mem_append.mp hx with hx | hx
    · exact h.1 x hx
    · rw [List.mem_singleton.mp hx]
      exact hc
  · refine h.2.append (List.chain'_singleton c) ?_
    intro a ha b hb
    have hb' : c = b := by simpa using hb
    subst hb'
    exact hrel a (by simpa using ha)

theorem chunksOK_set_last (cs : List (List Nat)) (c c' : List Nat)
    (h : ChunksOK (cs ++ [c])) (hc' : ChunkOK c') (hhead : 0x10 ≤ c'.getD 0 0) :
    ChunksOK (cs ++ [c']) := by
  constructor
  · intro x hx
    rcases List.mem_append.mp hx with hx | hx
    · exact h.1 x (List.mem_append_left _ hx)
    · rw [List.mem_singleton.mp hx]
      exact hc'
  · refine (h.2.left_of_append).append (List.chain'_singleton c') ?_
    intro a ha b hb
    have hb' : c' = b := by simpa using hb
    subst hb'
    intro _
    exact hhead

theorem getD_append_cons (dest : List Nat) (x : Nat) (l : List Nat) :
    (dest ++ x :: l).getD dest.length 0 = x := by
  rw [List.getD_append_right _ _ _ _ le_rfl, Nat.sub_self]
  rfl

theorem bufOK_append (dest c : List Nat) (h : BufOK dest) (hc : ChunkOK c)
    (hh : 0x10 ≤ c.getD 0 0) :
    ∃ cs, dest ++ c = (cs ++ [c]).flatten ∧ ChunksOK (cs ++ [c]) := by
  rcases h with ⟨cs, rfl, hcs⟩
  refine ⟨cs, by simp, chunksOK_append_one cs c hcs hc ?_⟩
  intro a _ _
  exact hh

theorem encInv_bufOK (dest : List Nat) (lf : Nat) (h : EncInv dest lf) : BufOK dest := by
  rcases h with ⟨rfl, rfl⟩ | ⟨cs, c, rfl, hcs, _⟩
  · exact ⟨[], rfl, chunksOK_nil⟩
  · exact ⟨cs ++ [c], rfl, hcs⟩

/-! ## `get_wad_packet_size` on one well-shaped chunk -/

theorem gwps_chunk (c rest : List Nat) (hc : ChunkOK c)
    (hlit : LiteralChunk c → rest = [] ∨ 0x10 ≤ rest.getD 0 0) :
    get_wad_packet_size (fun k => (c ++ rest).getD k 0) (c.length + rest.length) =
      .ok c.length := by
  rcases hc with (hf | hf) | hf | (hf | hf | hf)
  · -- short literal
    obtain ⟨f, data, h1, h2, h3, rfl⟩ := hf
    have hl := hlit (Or.inl ⟨f, data, h1, h2, h3, rfl⟩)
    unfold get_wad_packet_size
    dsimp only
    have e0 : ((f :: data) ++ rest).getD 0 0 = f := rfl
    rw [e0, if_pos (show f < 0x10 by omega), if_pos (show f ≠ 0 by omega)]
    have eg : ((f :: data) ++ rest).getD (1 + (f + 3)) 0 = rest.getD 0 0 := by
      rw [List.cons_append, show 1 + (f + 3) = (f + 3) + 1 from by omega,
        List.getD_cons_succ, List.getD_append_right _ _ _ _ (by omega), h3, Nat.sub_self]
    rw [eg]
    rw [if_neg ?hg]
    case hg =>
      rcases hl with rfl | hl
      · simp only [List.length_nil]
        intro hand
        have := hand.1
        simp [h3] at this
        omega
      · intro hand
        omega
    congr 1
    simp [h3]
    omega
  · -- long literal
    obtain ⟨n, data, h1, rfl⟩ := hf
    have hl := hlit (Or.inr ⟨n, data, h1, rfl⟩)
    unfold get_wad_packet_size
    dsimp only
    have e0 : ((0 :: n :: data) ++ rest).getD 0 0 = 0 := rfl
    have e1 : ((0 :: n :: data) ++ rest).getD 1 0 = n := rfl
    rw [e0, if_pos (show (0 : Nat) < 0x10 by omega), if_neg (show ¬ (0 : Nat) ≠ 0 by omega), e1]
    have eg : ((0 :: n :: data) ++ rest).getD (1 + 1 + (n + 18)) 0 = rest.getD 0 0 := by
      rw [List.cons_append, show 1 + 1 + (n + 18) = (n + 19) + 1 from by omega,
        List.getD_cons_succ, List.cons_append,
        show (n + 19 : Nat) = (n + 18) + 1 from by omega, List.getD_cons_succ,
        List.getD_append_right _ _ _ _ (by omega), h1, Nat.sub_self]
    rw [eg]
    rw [if_neg ?hg]
    case hg =>
      rcases hl with rfl | hl
      · simp only [List.length_nil]
        intro hand
        have := hand.1
        simp [h1] at this
        omega
      · intro hand
        omega
    congr 1
    simp [h1]
    omega
  · -- dummy
    obtain ⟨t, data, h1, h2, rfl⟩ := hf
    unfold get_wad_packet_size
    dsimp only
    have e0 : ((0x11 :: t :: 0 :: data) ++ rest).getD 0 0 = 0x11 := rfl
    have e1 : ((0x11 :: t :: 0 :: data) ++ rest).getD 1 0 = t := rfl
    rw [e0, if_neg (by omega), if_pos (show (0x11 : Nat) < 0x20 by omega),
      if_neg (show ¬ (0x11 : Nat) % 8 = 0 by omega)]
    rw [show (1 + 2 - 2 : Nat) = 1 from rfl, e1]
    congr 1
    simp [h2]
    omega
  · -- little match
    obtain ⟨f, m, data, h1, h2, h3, rfl⟩ := hf
    unfold get_wad_packet_size
    dsimp only
    have e0 : ((f :: m :: data) ++ rest).getD 0 0 = f := rfl
    rw [e0, if_neg (by omega), if_neg (by omega), if_neg (by omega)]
    rw [show (2 - 2 : Nat) = 0 from rfl, e0]
    congr 1
    simp [h3]
    omega
  · -- big match
    obtain ⟨f, b0, b1, data, h1, h2, h3, rfl⟩ := hf
    unfold get_wad_packet_size
    dsimp only
    have e0 : ((f :: b0 :: b1 :: data) ++ rest).getD 0 0 = f := rfl
    have e1 : ((f :: b0 :: b1 :: data) ++ rest).getD 1 0 = b0 := rfl
    rw [e0, if_neg (by omega), if_neg (by omega), if_pos (show f < 0x40 by omega),
      if_neg (show ¬ f % 32 = 0 by omega)]
    rw [show (1 + 2 - 2 : Nat) = 1 from rfl, e1]
    congr 1
    simp [h3]
    omega
  · -- bigger match
    obtain ⟨n, b0, b1, data, h1, rfl⟩ := hf
    unfold get_wad_packet_size
    dsimp only
    have e0 : ((0x20 :: n :: b0 :: b1 :: data) ++ rest).getD 0 0 = 0x20 := rfl
    have e2 : ((0x20 :: n :: b0 :: b1 :: data) ++ rest).getD 2 0 = b0 := rfl
    rw [e0, if_neg (by omega), if_neg (by omega), if_pos (show (0x20 : Nat) < 0x40 by omega),
      if_pos (show (0x20 : Nat) % 32 = 0 by omega)]
    rw [show (2 + 2 - 2 : Nat) = 2 from rfl, e2]
    congr 1
    simp [h1]
    omega

/-! ## Bounds on `find_match` results -/

theorem fm_window_body_ms (eob : Bool) (src : Nat → Nat) (t mm j mo ms : Nat) :
    (find_match_window_body eob src t mm j mo ms).2 = ms ∨
      3 ≤ (find_match_window_body eob src t mm j mo ms).2 := by
  unfold find_match_window_body
  by_cases hcond : (eob || (src j == src t && src (j + 1) == src (t + 1))) = true
  · rw [if_pos hcond]
    dsimp only
    by_cases hk : 3 ≤ count_equal_bytes src t j (mm - if eob then 0 else 2)
        (if eob then 0 else 2) ∧ ms < count_equal_bytes src t j
        (mm - if eob then 0 else 2) (if eob then 0 else 2)
    · rw [if_pos hk]
      exact Or.inr hk.1
    · rw [if_neg hk]
      exact Or.inl rfl
  · rw [if_neg hcond]
    exact Or.inl rfl

theorem fm_window_ms (eob : Bool) (src : Nat → Nat) (t mm : Nat) :
    ∀ (c j mo ms : Nat),
      (find_match_window eob src t mm c j mo ms).2 = ms ∨
        3 ≤ (find_match_window eob src t mm c j mo ms).2 := by
  intro c
  induction c with
  | zero => intro j mo ms; exact Or.inl rfl
  | succ c ih =>
    intro j mo ms
    rw [find_match_window]
    rcases ih (j + 1) (find_match_window_body eob src t mm j mo ms).1
        (find_match_window_body eob src t mm j mo ms).2 with h | h
    · rw [h]
      exact fm_window_body_ms eob src t mm j mo ms
    · exact Or.inr h

theorem fm_loop_ms (eob : Bool) (src : Nat → Nat) (p e ml : Nat) :
    ∀ (c i mo ms : Nat), ms = 0 ∨ 3 ≤ ms →
      (find_match_loop eob src p e ml c i mo ms).match_size = 0 ∨
        3 ≤ (find_match_loop eob src p e ml c i mo ms).match_size := by
  intro c
  induction c with
  | zero => intro i mo ms h; exact h
  | succ c ih =>
    intro i mo ms h
    rw [find_match_loop]
    by_cases hb : 3 ≤ (find_match_window eob src (p + i)
        (if eob then min MAX_MATCH_SIZE (e - p - i) else MAX_MATCH_SIZE)
        (p + i - sub_clamped (p + i) MAX_BIGGER_MATCH_LOOKBACK)
        (sub_clamped (p + i) MAX_BIGGER_MATCH_LOOKBACK) mo ms).2
    · rw [if_pos hb]
      exact Or.inr hb
    · rw [if_neg hb]
      refine ih (i + 1) _ _ ?_
      rcases fm_window_ms eob src (p + i)
          (if eob then min MAX_MATCH_SIZE (e - p - i) else MAX_MATCH_SIZE)
          (p + i - sub_clamped (p + i) MAX_BIGGER_MATCH_LOOKBACK)
          (sub_clamped (p + i) MAX_BIGGER_MATCH_LOOKBACK) mo ms with hw | hw
      · rw [hw]
        exact h
      · exact absurd hw hb

theorem find_match_ms (eob : Bool) (src : Nat → Nat) (p e : Nat) :
    (find_match eob src p e).match_size = 0 ∨ 3 ≤ (find_match eob src p e).match_size :=
  fm_loop_ms eob src p e _ _ 0 0 0 (Or.inl rfl)

theorem fm_loop_lit (eob : Bool) (src : Nat → Nat) (p e ml : Nat) :
    ∀ (c i mo ms : Nat),
      (find_match_loop eob src p e ml c i mo ms).literal_size = ml ∨
        (i ≤ (find_match_loop eob src p e ml c i mo ms).literal_size ∧
          (find_match_loop eob src p e ml c i mo ms).literal_size < i + c ∧
          3 ≤ (find_match_loop eob src p e ml c i mo ms).match_size) := by
  intro c
  induction c with
  | zero => intro i mo ms; exact Or.inl rfl
  | succ c ih =>
    intro i mo ms
    rw [find_match_loop]
    by_cases hb : 3 ≤ (find_match_window eob src (p + i)
        (if eob then min MAX_MATCH_SIZE (e - p - i) else MAX_MATCH_SIZE)
        (p + i - sub_clamped (p + i) MAX_BIGGER_MATCH_LOOKBACK)
        (sub_clamped (p + i) MAX_BIGGER_MATCH_LOOKBACK) mo ms).2
    · rw [if_pos hb]
      dsimp only
      exact Or.inr ⟨le_rfl, by omega, hb⟩
    · rw [if_neg hb]
      rcases ih (i + 1) _ _ with h | ⟨h1, h2, h3⟩
      · exact Or.inl h
      · exact Or.inr ⟨by omega, by omega, h3⟩

theorem find_match_literal_le (eob : Bool) (src : Nat → Nat) (p e : Nat) :
    (find_match eob src p e).literal_size ≤ MAX_LITERAL_SIZE := by
  simp only [find_match]
  have hle : (if eob then min MAX_LITERAL_SIZE (e - p) else MAX_LITERAL_SIZE) ≤
      MAX_LITERAL_SIZE := by
    split
    · exact min_le_left _ _
    · exact le_rfl
  rcases fm_loop_lit eob src p e
      (if eob then min MAX_LITERAL_SIZE (e - p) else MAX_LITERAL_SIZE)
      (if eob then min MAX_LITERAL_SIZE (e - p) else MAX_LITERAL_SIZE) 0 0 0 with
    h | ⟨h1, h2, h3⟩
  · rw [h]
    exact hle
  · omega

theorem find_match_lit0 (eob : Bool) (src : Nat → Nat) (p e : Nat) (hpe : p < e)
    (h0 : (find_match eob src p e).literal_size = 0) :
    3 ≤ (find_match eob src p e).match_size := by
  simp only [find_match] at h0 ⊢
  have hml : 1 ≤ if eob then min MAX_LITERAL_SIZE (e - p) else MAX_LITERAL_SIZE := by
    split
    · exact le_min (by norm_num [MAX_LITERAL_SIZE]) (by omega)
    · norm_num [MAX_LITERAL_SIZE]
  rcases fm_loop_lit eob src p e
      (if eob then min MAX_LITERAL_SIZE (e - p) else MAX_LITERAL_SIZE)
      (if eob then min MAX_LITERAL_SIZE (e - p) else MAX_LITERAL_SIZE) 0 0 0 with
    h | ⟨h1, h2, h3⟩
  · omega
  · exact h3

/-! ## The encoder transitions preserve the chunk-stream invariant -/

theorem lor_tiny (b L : Nat) (hb : b % 4 = 0) (hL : L < 4) : Nat.lor b L = b + L := by
  have hm : b = 2 ^ 2 * (b / 4) := by omega
  rw [hm]
  exact (Nat.mul_add_lt_is_or (by omega) _).symm

theorem encode_match_chunk (dest : List Nat) (sp mo ms : Nat) (h3 : 3 ≤ ms) :
    ∃ c, encode_match_packet dest sp mo ms = (dest ++ c, sp + ms, c.getD 0 0) ∧
      MatchChunk c ∧ Injectable c ∧ 0x20 ≤ c.getD 0 0 ∧ c.getD 0 0 < 0x100 := by
  unfold encode_match_packet
  dsimp only
  by_cases h1 : ms ≤ MAX_LITTLE_MATCH_SIZE ∧ sp - mo ≤ MAX_LITTLE_MATCH_LOOKBACK
  · rw [if_pos h1]
    have h8 : ms ≤ 8 := by
      have := h1.1
      unfold MAX_LITTLE_MATCH_SIZE at this
      omega
    refine ⟨[(ms - 1) * 32 + (sp - mo - 1) % 8 * 4, (sp - mo - 1) / 8 % 0x100], ?_, ?_, ?_, ?_, ?_⟩
    · rw [getD_append_cons]
      rfl
    · refine Or.inl ⟨(ms - 1) * 32 + (sp - mo - 1) % 8 * 4, (sp - mo - 1) / 8 % 0x100, [],
        by omega, by omega, ?_, rfl⟩
      simp only [List.length_nil]
      omega
    · exact Or.inr (Or.inl ⟨(ms - 1) * 32 + (sp - mo - 1) % 8 * 4, (sp - mo - 1) / 8 % 0x100,
        by omega, by omega, by omega, rfl⟩)
    · show (0x20 : Nat) ≤ (ms - 1) * 32 + (sp - mo - 1) % 8 * 4
      omega
    · show (ms - 1) * 32 + (sp - mo - 1) % 8 * 4 < 0x100
      omega
  · rw [if_neg h1]
    by_cases h2 : ms > MAX_BIG_MATCH_SIZE
    · rw [if_pos h2]
      refine ⟨[32, (ms - (0x1f + 2)) % 0x100, (sp - mo - 1) % 0x40 * 4,
        (sp - mo - 1) / 0x40 % 0x100], ?_, ?_, ?_, ?_, ?_⟩
      · rw [List.append_assoc]
        simp only [List.cons_append, List.nil_append]
        rw [getD_append_cons]
        rfl
      · refine Or.inr (Or.inr ⟨(ms - (0x1f + 2)) % 0x100, (sp - mo - 1) % 0x40 * 4,
          (sp - mo - 1) / 0x40 % 0x100, [], ?_, rfl⟩)
        simp only [List.length_nil]
        omega
      · exact Or.inr (Or.inr (Or.inr ⟨(ms - (0x1f + 2)) % 0x100, (sp - mo - 1) % 0x40 * 4,
          (sp - mo - 1) / 0x40 % 0x100, by omega, rfl⟩))
      · show (0x20 : Nat) ≤ 0x20
        omega
      · show (0x20 : Nat) < 0x100
        omega
    · rw [if_neg h2]
      unfold MAX_BIG_MATCH_SIZE at h2
      refine ⟨[32 + (ms - 2), (sp - mo - 1) % 0x40 * 4, (sp - mo - 1) / 0x40 % 0x100],
        ?_, ?_, ?_, ?_, ?_⟩
      · rw [List.append_assoc]
        simp only [List.cons_append, List.nil_append]
        rw [getD_append_cons]
        rfl
      · refine Or.inr (Or.inl ⟨32 + (ms - 2), (sp - mo - 1) % 0x40 * 4,
          (sp - mo - 1) / 0x40 % 0x100, [], by omega, by omega, ?_, rfl⟩)
        simp only [List.length_nil]
        omega
      · exact Or.inr (Or.inr (Or.inl ⟨32 + (ms - 2), (sp - mo - 1) % 0x40 * 4,
          (sp - mo - 1) / 0x40 % 0x100, by omega, by omega, by omega, rfl⟩))
      · show (0x20 : Nat) ≤ 32 + (ms - 2)
        omega
      · show 32 + (ms - 2) < 0x100
        omega

theorem encode_match_step (dest : List Nat) (lf sp mo ms : Nat) (h3 : 3 ≤ ms)
    (h : EncInv dest lf) :
    ∃ d lf2, encode_match_packet dest sp mo ms = (d, sp + ms, lf2) ∧ EncInv d lf2 := by
  obtain ⟨c, heq, hmc, hinj, hge, hlt⟩ := encode_match_chunk dest sp mo ms h3
  refine ⟨dest ++ c, c.getD 0 0, heq, ?_⟩
  obtain ⟨cs, hjoin, hcs⟩ := bufOK_append dest c (encInv_bufOK _ _ h)
    (Or.inr (Or.inr hmc)) (by omega)
  exact Or.inr ⟨cs, c, hjoin, hcs,
    Or.inr (Or.inr ⟨by omega, by unfold DO_NOT_INJECT_FLAG; omega, hinj⟩)⟩

theorem flatten_concat (cs : List (List Nat)) (c : List Nat) :
    (cs ++ [c]).flatten = cs.flatten ++ c := by
  simp

theorem nat_lor_zero_left (x : Nat) : Nat.lor 0 x = x := Nat.zero_or x

theorem inject_last (B : List Nat) (cs : List (List Nat)) (c : List Nat) (src : Nat → Nat)
    (sp L : Nat) (hL : L ≤ 3) (hB : B = (cs ++ [c]).flatten)
    (hcs : ChunksOK (cs ++ [c])) (hinj : Injectable c) :
    ∃ c2, B.set (B.length - 2) (Nat.lor (B.getD (B.length - 2) 0) L) ++
        List.map src (List.range' sp L) = (cs ++ [c2]).flatten ∧
      ChunksOK (cs ++ [c2]) ∧ 0x10 ≤ c2.getD 0 0 := by
  have hclen := injectable_length c hinj
  subst hB
  rw [flatten_concat]
  have hlen2 : (cs.flatten ++ c).length - 2 = cs.flatten.length + (c.length - 2) := by
    rw [List.length_append]
    omega
  rw [hlen2, List.getD_append_right _ _ _ _ (by omega), List.set_append_right _ _ (by omega),
    show cs.flatten.length + (c.length - 2) - cs.flatten.length = c.length - 2 from by omega]
  rcases hinj with hc0 | ⟨f, m, hf1, hf2, hf3, hc0⟩ | ⟨f, b0, b1, hf1, hf2, hf3, hc0⟩ |
    ⟨n, b0, b1, hf1, hc0⟩ <;> subst hc0
  · -- inject into a fresh dummy
    rw [show (([0x11, 0, 0] : List Nat)).getD (([0x11, 0, 0] : List Nat).length - 2) 0 = 0
        from rfl,
      nat_lor_zero_left]
    refine ⟨0x11 :: L :: 0 :: List.map src (List.range' sp L), ?_, ?_, ?_⟩
    · rw [flatten_concat, List.append_assoc,
        show ([0x11, 0, 0] : List Nat).set (([0x11, 0, 0] : List Nat).length - 2) L =
          [0x11, L, 0] from rfl]
      rfl
    · exact chunksOK_set_last cs _ _ hcs
        (Or.inr (Or.inl ⟨L, _, hL, by simp, rfl⟩))
        (by show (0x10 : Nat) ≤ 0x11; norm_num)
    · show (0x10 : Nat) ≤ 0x11
      norm_num
  · -- inject into a little match
    have hlor : Nat.lor (([f, m] : List Nat).getD (([f, m] : List Nat).length - 2) 0) L =
        f + L := by
      rw [show (([f, m] : List Nat)).getD (([f, m] : List Nat).length - 2) 0 = f from rfl]
      exact lor_tiny f L hf3 (by omega)
    rw [hlor]
    refine ⟨(f + L) :: m :: List.map src (List.range' sp L), ?_, ?_, ?_⟩
    · rw [flatten_concat, List.append_assoc,
        show ([f, m] : List Nat).set (([f, m] : List Nat).length - 2) (f + L) = [f + L, m]
          from rfl]
      rfl
    · refine chunksOK_set_last cs _ _ hcs
        (Or.inr (Or.inr (Or.inl ⟨f + L, m, _, by omega, by omega, ?_, rfl⟩))) ?_
      · simp only [List.length_map, List.length_range']
        omega
      · show (0x10 : Nat) ≤ f + L
        omega
    · show (0x10 : Nat) ≤ f + L
      omega
  · -- inject into a big match
    have hlor : Nat.lor (([f, b0, b1] : List Nat).getD (([f, b0, b1] : List Nat).length - 2) 0)
        L = b0 + L := by
      rw [show (([f, b0, b1] : List Nat)).getD (([f, b0, b1] : List Nat).length - 2) 0 = b0
        from rfl]
      exact lor_tiny b0 L hf3 (by omega)
    rw [hlor]
    refine ⟨f :: (b0 + L) :: b1 :: List.map src (List.range' sp L), ?_, ?_, ?_⟩
    · rw [flatten_concat, List.append_assoc,
        show ([f, b0, b1] : List Nat).set (([f, b0, b1] : List Nat).length - 2) (b0 + L) =
          [f, b0 + L, b1] from rfl]
      rfl
    · refine chunksOK_set_last cs _ _ hcs
        (Or.inr (Or.inr (Or.inr (Or.inl ⟨f, b0 + L, b1, _, hf1, hf2, ?_, rfl⟩)))) ?_
      · simp only [List.length_map, List.length_range']
        omega
      · show (0x10 : Nat) ≤ f
        omega
    · show (0x10 : Nat) ≤ f
      omega
  · -- inject into a bigger match
    have hlor : Nat.lor
        (([0x20, n, b0, b1] : List Nat).getD (([0x20, n, b0, b1] : List Nat).length - 2) 0) L =
        b0 + L := by
      rw [show (([0x20, n, b0, b1] : List Nat)).getD
        (([0x20, n, b0, b1] : List Nat).length - 2) 0 = b0 from rfl]
      exact lor_tiny b0 L hf1 (by omega)
    rw [hlor]
    refine ⟨0x20 :: n :: (b0 + L) :: b1 :: List.map src (List.range' sp L), ?_, ?_, ?_⟩
    · rw [flatten_concat, List.append_assoc,
        show ([0x20, n, b0, b1] : List Nat).set
          (([0x20, n, b0, b1] : List Nat).length - 2) (b0 + L) = [0x20, n, b0 + L, b1]
          from rfl]
      rfl
    · refine chunksOK_set_last cs _ _ hcs
        (Or.inr (Or.inr (Or.inr (Or.inr ⟨n, b0 + L, b1, _, ?_, rfl⟩)))) ?_
      · simp only [List.length_map, List.length_range']
        omega
      · show (0x10 : Nat) ≤ 0x20
        norm_num
    · show (0x10 : Nat) ≤ 0x20
      norm_num

theorem append_literal_chunk (B : List Nat) (cs : List (List Nat)) (src : Nat → Nat)
    (sp L : Nat) (h4 : 4 ≤ L) (hL : L ≤ MAX_LITERAL_SIZE) (hB : B = cs.flatten)
    (hcs : ChunksOK cs) (hlast : ∀ a, cs.getLast? = some a → ¬ LiteralChunk a) :
    ∃ lc, (if L ≤ 18 then B ++ [L - 3] else B ++ [0, (L - 18) % 0x100]) ++
        List.map src (List.range' sp L) = (cs ++ [lc]).flatten ∧
      ChunksOK (cs ++ [lc]) ∧
      ((if L ≤ 18 then B ++ [L - 3] else B ++ [0, (L - 18) % 0x100]) ++
        List.map src (List.range' sp L)).getD B.length 0 < 0x10 := by
  subst hB
  unfold MAX_LITERAL_SIZE at hL
  by_cases h18 : L ≤ 18
  · rw [if_pos h18]
    refine ⟨(L - 3) :: List.map src (List.range' sp L), ?_, ?_, ?_⟩
    · rw [flatten_concat, List.append_assoc]
      rfl
    · refine chunksOK_append_one cs _ hcs
        (Or.inl (Or.inl ⟨L - 3, _, by omega, by omega, ?_, rfl⟩)) ?_
      · simp only [List.length_map, List.length_range']
        omega
      · intro a ha hlit
        exact absurd hlit (hlast a ha)
    · rw [List.append_assoc,
        show ([L - 3] : List Nat) ++ List.map src (List.range' sp L) =
          (L - 3) :: List.map src (List.range' sp L) from rfl,
        getD_append_cons]
      omega
  · rw [if_neg h18]
    refine ⟨0 :: (L - 18) % 0x100 :: List.map src (List.range' sp L), ?_, ?_, ?_⟩
    · rw [flatten_concat, List.append_assoc]
      rfl
    · refine chunksOK_append_one cs _ hcs
        (Or.inl (Or.inr ⟨(L - 18) % 0x100, _, ?_, rfl⟩)) ?_
      · simp only [List.length_map, List.length_range']
        omega
      · intro a ha hlit
        exact absurd hlit (hlast a ha)
    · rw [List.append_assoc,
        show ([0, (L - 18) % 0x100] : List Nat) ++ List.map src (List.range' sp L) =
          0 :: (L - 18) % 0x100 :: List.map src (List.range' sp L) from rfl,
        getD_append_cons]
      omega

theorem not_literal_dummy : ¬ LiteralChunk DUMMY_PACKET :=
  not_literal_of_head _ (by show (0x10 : Nat) ≤ 0x11; norm_num)

theorem encode_literal_step (dest : List Nat) (src : Nat → Nat) (sp lf L : Nat)
    (hL : L ≤ MAX_LITERAL_SIZE) (h : EncInv dest lf) :
    ∃ d lf2, encode_literal_packet dest src sp lf L = (d, sp + L, lf2) ∧ EncInv d lf2 := by
  unfold encode_literal_packet
  by_cases hlf : lf < 0x10
  · rw [if_pos hlf]
    dsimp only
    obtain ⟨cs1, hB, hcs1⟩ := bufOK_append dest DUMMY_PACKET (encInv_bufOK _ _ h)
      (Or.inr (Or.inl dummy_packet_chunk)) (by show (0x10 : Nat) ≤ 0x11; norm_num)
    by_cases hL3 : L ≤ 3
    · rw [if_pos hL3, if_neg (by norm_num [DO_NOT_INJECT_FLAG])]
      dsimp only
      obtain ⟨c2, heq, hcs2, hhead⟩ := inject_last (dest ++ DUMMY_PACKET) cs1 DUMMY_PACKET
        src sp L hL3 hB hcs1 (Or.inl rfl)
      refine ⟨_, _, rfl, ?_⟩
      exact Or.inr ⟨cs1, c2, heq, hcs2, Or.inl ⟨rfl, not_literal_of_head _ hhead⟩⟩
    · rw [if_neg hL3]
      have hlast : ∀ a, (cs1 ++ [DUMMY_PACKET]).getLast? = some a → ¬ LiteralChunk a := by
        intro a ha
        rw [List.getLast?_concat] at ha
        injection ha with ha
        rw [← ha]
        exact not_literal_dummy
      obtain ⟨lc, heq, hcs2, hlt⟩ := append_literal_chunk (dest ++ DUMMY_PACKET)
        (cs1 ++ [DUMMY_PACKET]) src sp L (by omega) hL hB hcs1 hlast
      refine ⟨_, _, rfl, ?_⟩
      exact Or.inr ⟨cs1 ++ [DUMMY_PACKET], lc, heq, hcs2, Or.inr (Or.inl hlt)⟩
  · rw [if_neg hlf]
    dsimp only
    by_cases hL3 : L ≤ 3
    · by_cases hdni : lf = DO_NOT_INJECT_FLAG
      · rw [if_pos hL3, if_pos hdni]
        dsimp only
        obtain ⟨cs1, hB, hcs1⟩ := bufOK_append dest DUMMY_PACKET (encInv_bufOK _ _ h)
          (Or.inr (Or.inl dummy_packet_chunk)) (by show (0x10 : Nat) ≤ 0x11; norm_num)
        obtain ⟨c2, heq, hcs2, hhead⟩ := inject_last (dest ++ DUMMY_PACKET) cs1 DUMMY_PACKET
          src sp L hL3 hB hcs1 (Or.inl rfl)
        refine ⟨_, _, rfl, ?_⟩
        exact Or.inr ⟨cs1, c2, heq, hcs2, Or.inl ⟨rfl, not_literal_of_head _ hhead⟩⟩
      · rw [if_pos hL3, if_neg hdni]
        dsimp only
        rcases h with ⟨rfl, rfl⟩ | ⟨cs, c, hB, hcs, hst⟩
        · exact absurd rfl hdni
        · rcases hst with ⟨hd, _⟩ | hd | ⟨_, _, hinj⟩
          · exact absurd hd hdni
          · exact absurd hd hlf
          · obtain ⟨c2, heq, hcs2, hhead⟩ := inject_last dest cs c src sp L hL3 hB hcs hinj
            refine ⟨_, _, rfl, ?_⟩
            exact Or.inr ⟨cs, c2, heq, hcs2, Or.inl ⟨rfl, not_literal_of_head _ hhead⟩⟩
    · rw [if_neg hL3]
      rcases h with ⟨rfl, rfl⟩ | ⟨cs, c, hB, hcs, hst⟩
      · obtain ⟨lc, heq, hcs2, hlt⟩ := append_literal_chunk [] [] src sp L (by omega) hL rfl
          chunksOK_nil (fun a ha => by cases ha)
        refine ⟨_, _, rfl, ?_⟩
        exact Or.inr ⟨[], lc, heq, hcs2, Or.inr (Or.inl hlt)⟩
      · have hnl : ¬ LiteralChunk c := by
          rcases hst with ⟨_, hn⟩ | hd | ⟨_, _, hinj⟩
          · exact hn
          · exact absurd hd hlf
          · exact not_literal_of_head _ (injectable_head c hinj)
        have hlast2 : ∀ a, (cs ++ [c]).getLast? = some a → ¬ LiteralChunk a := by
          intro a ha
          rw [List.getLast?_concat] at ha
          injection ha with ha
          rw [← ha]
          exact hnl
        obtain ⟨lc, heq, hcs2, hlt⟩ := append_literal_chunk dest (cs ++ [c]) src sp L
          (by omega) hL hB hcs hlast2
        refine ⟨_, _, rfl, ?_⟩
        exact Or.inr ⟨cs ++ [c], lc, heq, hcs2, Or.inr (Or.inl hlt)⟩

/-! ## The intermediate encoder produces a well-formed chunk stream -/

theorem compress_loop_bufOK (src : Nat → Nat) (src_end : Nat) :
    ∀ (fuel sp : Nat) (dest : List Nat) (lf : Nat), EncInv dest lf →
      BufOK (compress_wad_intermediate_loop src src_end fuel sp dest lf) := by
  intro fuel
  induction fuel with
  | zero => intro sp dest lf h; exact encInv_bufOK _ _ h
  | succ fuel ih =>
    intro sp dest lf h
    rw [compress_wad_intermediate_loop]
    by_cases hsp : sp < src_end
    · rw [if_pos hsp]
      have heob : ∃ eob, (if sp + MAX_MATCH_SIZE ≥ src_end then find_match true src sp src_end
          else find_match false src sp src_end) = find_match eob src sp src_end := by
        by_cases hx : sp + MAX_MATCH_SIZE ≥ src_end
        · exact ⟨true, if_pos hx⟩
        · exact ⟨false, if_neg hx⟩
      obtain ⟨eob, heq⟩ := heob
      rw [heq]
      by_cases hm0 : (find_match eob src sp src_end).literal_size = 0
      · rw [if_pos hm0]
        have h3 := find_match_lit0 eob src sp src_end hsp hm0
        obtain ⟨d, lf2, he, hinv⟩ := encode_match_step dest lf sp
          (find_match eob src sp src_end).match_offset
          (find_match eob src sp src_end).match_size h3 h
        rw [he]
        exact ih _ d lf2 hinv
      · rw [if_neg hm0]
        have hle := find_match_literal_le eob src sp src_end
        obtain ⟨d, lf2, he, hinv⟩ := encode_literal_step dest src sp lf
          (find_match eob src sp src_end).literal_size hle h
        rw [he]
        dsimp only
        by_cases hms : (find_match eob src sp src_end).match_size > 0
        · rw [if_pos hms]
          have h3 : 3 ≤ (find_match eob src sp src_end).match_size := by
            rcases find_match_ms eob src sp src_end with h0 | h0
            · omega
            · exact h0
          obtain ⟨d2, lf3, he2, hinv2⟩ := encode_match_step d lf2
            (sp + (find_match eob src sp src_end).literal_size)
            (find_match eob src sp src_end).match_offset
            (find_match eob src sp src_end).match_size h3 hinv
          rw [he2]
          exact ih _ d2 lf3 hinv2
        · rw [if_neg hms]
          exact ih _ d lf2 hinv
    · rw [if_neg hsp]
      exact encInv_bufOK _ _ h

theorem compress_wad_intermediate_bufOK (src : Nat → Nat) (a b : Nat) :
    BufOK (compress_wad_intermediate src a b) :=
  compress_loop_bufOK src b _ a [] DO_NOT_INJECT_FLAG (Or.inl ⟨rfl, rfl⟩)

/-! ## The stitcher preserves the chunk decomposition, adding pads and dummies -/

theorem chunk_count_le_length (cs : List (List Nat)) (h : ∀ c ∈ cs, ChunkOK c) :
    cs.length ≤ cs.flatten.length := by
  induction cs with
  | nil => simp
  | cons c rest ih =>
    rw [List.flatten_cons, List.length_cons, List.length_append]
    have h1 : c ≠ [] := chunkOK_ne_nil c (h c (by simp))
    have h2 : 0 < c.length := List.length_pos.mpr h1
    have h3 := ih (fun x hx => h x (by simp [hx]))
    omega

theorem stitch_walk (full : List Nat) (nf : Bool) :
    ∀ (cs : List (List Nat)), ChunksOK cs →
      ∀ (fuel pos : Nat) (dest : List Nat), full.drop pos = cs.flatten →
        cs.length < fuel →
        ∃ outs : List (List Nat),
          stitch_block full nf fuel pos dest = .ok (dest ++ outs.flatten) ∧
          ∀ u ∈ outs, OutChunk u := by
  intro cs
  induction cs with
  | nil =>
    intro hcs fuel pos dest hdrop hfuel
    obtain ⟨fuel, rfl⟩ : ∃ k, fuel = k + 1 := ⟨fuel - 1, by omega⟩
    have hlen : full.length ≤ pos := by
      have h1 : (full.drop pos).length = 0 := by rw [hdrop]; rfl
      rw [List.length_drop] at h1
      omega
    rw [stitch_block, if_neg (by omega)]
    exact ⟨[], by simp, by simp⟩
  | cons c cs ih =>
    intro hcs fuel pos dest hdrop hfuel
    obtain ⟨fuel, rfl⟩ : ∃ k, fuel = k + 1 := ⟨fuel - 1, by omega⟩
    have hc : ChunkOK c := hcs.1 c (by simp)
    have hcs2 : ChunksOK cs := ⟨fun x hx => hcs.1 x (by simp [hx]), hcs.2.tail⟩
    have hcne : c ≠ [] := chunkOK_ne_nil c hc
    have hdlen : (full.drop pos).length = c.length + cs.flatten.length := by
      rw [hdrop, List.flatten_cons, List.length_append]
    have hpos : pos < full.length := by
      rw [List.length_drop] at hdlen
      have h2 : 0 < c.length := List.length_pos.mpr hcne
      omega
    rw [stitch_block, if_pos hpos]
    have hsrc : (fun k => full.getD (pos + k) 0) = (fun k => (c ++ cs.flatten).getD k 0) := by
      funext k
      rw [List.getD_eq_getElem?_getD, List.getD_eq_getElem?_getD, ← List.getElem?_drop,
        hdrop, List.flatten_cons]
    have hbl : full.length - pos = c.length + cs.flatten.length := by
      rw [← List.length_drop, hdlen]
    have hlit : LiteralChunk c → cs.flatten = [] ∨ 0x10 ≤ cs.flatten.getD 0 0 := by
      intro hl
      cases cs with
      | nil => exact Or.inl rfl
      | cons c2 rest =>
        refine Or.inr ?_
        have hr : chunkRel c c2 := (List.chain'_cons.mp hcs.2).1
        have hc2 : c2 ≠ [] := chunkOK_ne_nil c2 (hcs.1 c2 (by simp))
        rw [List.flatten_cons, List.getD_append _ _ _ _ (List.length_pos.mpr hc2)]
        exact hr hl
    have hg : get_wad_packet_size (fun k => full.getD (pos + k) 0) (full.length - pos) =
        .ok c.length := by
      rw [hsrc, hbl]
      exact gwps_chunk c cs.flatten hc hlit
    rw [hg, ok_bind]
    dsimp only
    have hdrop2 : full.drop (pos + c.length) = cs.flatten := by
      rw [← List.drop_drop, hdrop, List.flatten_cons, List.drop_left]
    have hfl : cs.length < fuel := by
      rw [List.length_cons] at hfuel
      omega
    rw [hdrop, List.flatten_cons, List.take_left]
    by_cases hdum : nf = true ∧ pos = 0
    · simp only [if_pos hdum]
      by_cases hpad : (dest.length + 0x1ff0) % 0x2000 + (c.length + 3) > 0x2000 - 3
      · simp only [if_pos hpad]
        obtain ⟨outs, hso, hom⟩ := ih hcs2 fuel (pos + c.length)
          (((dest ++ [0x12, 0x0, 0x0] ++
            List.replicate (fillToBlockBoundary (dest ++ [0x12, 0x0, 0x0]).length) 0xee) ++
            DUMMY_PACKET) ++ c) hdrop2 hfl
        refine ⟨(0x12 :: 0x0 :: 0x0 ::
            List.replicate (fillToBlockBoundary (dest ++ [0x12, 0x0, 0x0]).length) 0xee) ::
            DUMMY_PACKET :: c :: outs, ?_, ?_⟩
        · rw [hso]
          congr 1
          simp only [List.flatten_cons, List.append_assoc, List.cons_append, List.nil_append]
        · intro u hu
          simp only [List.mem_cons] at hu
          rcases hu with rfl | rfl | rfl | hu
          · exact Or.inr ⟨_, rfl⟩
          · exact Or.inl (Or.inr (Or.inl dummy_packet_chunk))
          · exact Or.inl hc
          · exact hom u hu
      · simp only [if_neg hpad]
        obtain ⟨outs, hso, hom⟩ := ih hcs2 fuel (pos + c.length)
          ((dest ++ DUMMY_PACKET) ++ c) hdrop2 hfl
        refine ⟨DUMMY_PACKET :: c :: outs, ?_, ?_⟩
        · rw [hso]
          congr 1
          simp only [List.flatten_cons, List.append_assoc, List.cons_append, List.nil_append]
        · intro u hu
          simp only [List.mem_cons] at hu
          rcases hu with rfl | rfl | hu
          · exact Or.inl (Or.inr (Or.inl dummy_packet_chunk))
          · exact Or.inl hc
          · exact hom u hu
    · simp only [if_neg hdum]
      by_cases hpad : (dest.length + 0x1ff0) % 0x2000 + (c.length + 0) > 0x2000 - 3
      · simp only [if_pos hpad]
        obtain ⟨outs, hso, hom⟩ := ih hcs2 fuel (pos + c.length)
          ((dest ++ [0x12, 0x0, 0x0] ++
            List.replicate (fillToBlockBoundary (dest ++ [0x12, 0x0, 0x0]).length) 0xee) ++ c)
          hdrop2 hfl
        refine ⟨(0x12 :: 0x0 :: 0x0 ::
            List.replicate (fillToBlockBoundary (dest ++ [0x12, 0x0, 0x0]).length) 0xee) ::
            c :: outs, ?_, ?_⟩
        · rw [hso]
          congr 1
          simp only [List.flatten_cons, List.append_assoc, List.cons_append, List.nil_append]
        · intro u hu
          simp only [List.mem_cons] at hu
          rcases hu with rfl | rfl | hu
          · exact Or.inr ⟨_, rfl⟩
          · exact Or.inl hc
          · exact hom u hu
      · simp only [if_neg hpad]
        obtain ⟨outs, hso, hom⟩ := ih hcs2 fuel (pos + c.length) (dest ++ c) hdrop2 hfl
        refine ⟨c :: outs, ?_, ?_⟩
        · rw [hso]
          congr 1
          simp only [List.flatten_cons, List.append_assoc]
        · intro u hu
          simp only [List.mem_cons] at hu
          rcases hu with rfl | hu
          · exact Or.inl hc
          · exact hom u hu

theorem stitch_blocks_chunks :
    ∀ (bs : List (List Nat)) (first : Bool) (dest : List Nat), (∀ b ∈ bs, BufOK b) →
      ∃ outs : List (List Nat), stitch_blocks bs first dest = .ok (dest ++ outs.flatten) ∧
        ∀ u ∈ outs, OutChunk u := by
  intro bs
  induction bs with
  | nil =>
    intro first dest hb
    exact ⟨[], by simp [stitch_blocks], by simp⟩
  | cons b rest ih =>
    intro first dest hb
    obtain ⟨cs, rfl, hcs⟩ := hb b (by simp)
    obtain ⟨outs1, hso1, hom1⟩ := stitch_walk cs.flatten (!first) cs hcs
      (cs.flatten.length + 1) 0 dest rfl
      (by have := chunk_count_le_length cs hcs.1; omega)
    rw [stitch_blocks, hso1, ok_bind]
    obtain ⟨outs2, hso2, hom2⟩ := ih false (dest ++ outs1.flatten)
      (fun x hx => hb x (by simp [hx]))
    rw [hso2]
    refine ⟨outs1 ++ outs2, ?_, ?_⟩
    · rw [List.flatten_append, List.append_assoc]
    · intro u hu
      rcases List.mem_append.mp hu with hu | hu
      · exact hom1 u hu
      · exact hom2 u hu

theorem writeU32LE_append (l1 l2 : List Nat) (n : Nat) (h : 7 ≤ l1.length) :
    writeU32LE (l1 ++ l2) 3 n = writeU32LE l1 3 n ++ l2 := by
  unfold writeU32LE
  rw [List.set_append_left _ _ (by omega),
    List.set_append_left _ _ (by simp only [List.length_set]; omega),
    List.set_append_left _ _ (by simp only [List.length_set]; omega),
    List.set_append_left _ _ (by simp only [List.length_set]; omega)]

/-- Assembly of the chunk decomposition of a full `compress_wad` output
from the stitched blocks and the final header patch. -/
theorem compress_output_chunks (I : List (List Nat)) (d w : List Nat)
    (hbufs : ∀ b ∈ I, BufOK b)
    (hst : stitch_blocks I true WAD_HEADER = .ok d)
    (hw : w = writeU32LE d 3 d.length) :
    ∃ chunks : List (List Nat),
      w = writeU32LE WAD_HEADER 3 w.length ++ chunks.flatten ∧
      (∀ c ∈ chunks, LiteralChunk c ∨ DummyChunk c ∨ PadChunk c ∨ MatchChunk c) ∧
      (∀ c ∈ chunks, 0x10 ≤ c.getD 0 0 → c.getD 0 0 < 0x20 → DummyChunk c ∨ PadChunk c) := by
  obtain ⟨outs, hso, hom⟩ := stitch_blocks_chunks I true WAD_HEADER hbufs
  rw [hso] at hst
  injection hst with hst
  subst hst
  have hwlen : w.length = (WAD_HEADER ++ outs.flatten).length := by
    rw [hw, writeU32LE_length]
  rw [writeU32LE_append _ _ _ (by norm_num [WAD_HEADER])] at hw
  refine ⟨outs, ?_, ?_, ?_⟩
  · rw [hwlen]
    exact hw
  · intro c hc
    rcases hom c hc with (h | h | h) | h
    · exact Or.inl h
    · exact Or.inr (Or.inl h)
    · exact Or.inr (Or.inr (Or.inr h))
    · exact Or.inr (Or.inr (Or.inl h))
  · intro c hc h1 h2
    rcases hom c hc with (h | h | h) | h
    · exact absurd (literalChunk_head c h) (by omega)
    · exact Or.inl h
    · exact absurd (matchChunk_head c h).1 (by omega)
    · exact Or.inr h

/-! ## Claim theorems -/

set_option maxRecDepth 8000 in
/-- C1.  The round-trip property `decompress (compress s t) = s` fails on
the code: on the 257-byte incompressible input `cexInput` with
`thread_count = 1`, the encoder's gap to `src_end` is 257, so the
non-end-of-buffer match finder is used; it scans past the end of the
input, the emitted packets cover 514 source positions, and the stream
decompresses to 514 bytes, not the original 257.  (In the C++ this is an
out-of-bounds heap read; whatever bytes the match finder sees there, the
output length exceeds 257.) -/
theorem C1_round_trip_fails_on_incompressible_input :
    cexInput.length = 257 ∧
      ((compress_wad_list cexInput 1).bind decompress_wad).map List.length =
        .ok 514 := by
  constructor
  · simp [cexInput]
  · rw [cex_list_eq, cex_compress]
    exact cex_decompress

/-- C2.  For every source buffer, position and destination, when the
decompressor successfully consumes one non-pad packet (taking source
position `spos` to `spos2`), `get_wad_packet_size` applied to the bytes
starting at the packet's flag byte — the pointer `fun k => src.getD
(spos + k) 0` with `src.length - spos` bytes left, as the stitcher calls
it — returns exactly `spos2 - spos`, the number of source bytes consumed,
tiny-literal suffix included. -/
theorem C2_packet_length_agreement (src : List Nat) (spos : Nat) (dest : List Nat) (spos2 : Nat) (dest2 : List Nat)
    (hok : decompress_wad_step src spos dest = .ok (spos2, dest2))
    (hnp : ¬ is_pad_packet src spos) :
    get_wad_packet_size (fun k => src.getD (spos + k) 0) (src.length - spos) =
      .ok (spos2 - spos) := by
  by_cases h0 : spos < src.length
  case neg =>
    unfold decompress_wad_step at hok
    rw [read8, if_neg h0, error_bind] at hok
    cases hok
  unfold decompress_wad_step at hok
  rw [read8, if_pos h0] at hok
  rw [ok_bind] at hok
  unfold get_wad_packet_size
  dsimp only
  simp only [Nat.add_zero]
  by_cases hf : src.getD spos 0 < 0x10
  · -- Literal packet
    rw [if_pos hf] at hok
    rw [if_pos hf]
    by_cases hz : src.getD spos 0 ≠ 0
    · rw [if_pos hz] at hok
      rw [if_pos hz]
      simp only [pure_ok, ok_bind] at hok
      by_cases hb : spos + 1 + (src.getD spos 0 + 3) ≤ src.length
      case neg =>
        rw [readBytes, if_neg hb, error_bind] at hok
        cases hok
      rw [readBytes, if_pos hb, ok_bind] at hok
      by_cases hdl : spos + 1 + (src.getD spos 0 + 3) < src.length ∧
          src.getD (spos + 1 + (src.getD spos 0 + 3)) 0 < 0x10
      case pos =>
        rw [if_pos hdl] at hok
        cases hok
      rw [if_neg hdl] at hok
      cases hok
      rw [show spos + (1 + (src.getD spos 0 + 3)) = spos + 1 + (src.getD spos 0 + 3) from by omega]
      rw [if_neg (fun hc => hdl ⟨by omega, hc.2⟩)]
      congr 1
      omega
    · -- Long literal: flag byte zero, length in the next byte
      rw [if_neg hz] at hok
      rw [if_neg hz]
      by_cases h1 : spos + 1 < src.length
      case neg =>
        rw [read8, if_neg h1, error_bind] at hok
        cases hok
      rw [read8, if_pos h1] at hok
      simp only [pure_ok, ok_bind] at hok
      by_cases hb : spos + 1 + 1 + (src.getD (spos + 1) 0 + 18) ≤ src.length
      case neg =>
        rw [readBytes, if_neg hb, error_bind] at hok
        cases hok
      rw [readBytes, if_pos hb, ok_bind] at hok
      by_cases hdl : spos + 1 + 1 + (src.getD (spos + 1) 0 + 18) < src.length ∧
          src.getD (spos + 1 + 1 + (src.getD (spos + 1) 0 + 18)) 0 < 0x10
      case pos =>
        rw [if_pos hdl] at hok
        cases hok
      rw [if_neg hdl] at hok
      cases hok
      rw [show spos + (1 + 1 + (src.getD (spos + 1) 0 + 18)) =
        spos + 1 + 1 + (src.getD (spos + 1) 0 + 18) from by omega]
      rw [if_neg (fun hc => hdl ⟨by omega, hc.2⟩)]
      congr 1
      omega
  · -- Match-family packets
    rw [if_neg hf] at hok
    rw [if_neg hf]
    by_cases h20 : src.getD spos 0 < 0x20
    · -- 0x10-0x1f
      rw [if_pos h20] at hok
      rw [if_pos h20]
      by_cases hce : src.getD spos 0 % 8 ≠ 0
      · -- no extension byte
        rw [if_pos hce] at hok
        rw [if_neg (fun hc => hce hc)]
        simp only [pure_ok, ok_bind] at hok
        by_cases h1 : spos + 1 < src.length
        case neg =>
          rw [read8, if_neg h1, error_bind] at hok
          cases hok
        rw [read8, if_pos h1, ok_bind] at hok
        by_cases h2 : spos + 1 + 1 < src.length
        case neg =>
          rw [read8, if_neg h2, error_bind] at hok
          cases hok
        rw [read8, if_pos h2, ok_bind] at hok
        by_cases hd : ((src.getD spos 0 / 8 % 2 : Nat) * (-0x4000) -
            ((src.getD (spos + 1) 0 / 4 : Nat) + (src.getD (spos + 1 + 1) 0 : Nat) * 0x40) : Int) ≠ 0
        · -- real copy
          rw [if_pos hd] at hok
          rw [if_pos (show src.getD spos 0 % 8 + 2 ≠ 1 by omega)] at hok
          by_cases hlb : ((dest.length : Int) + ((src.getD spos 0 / 8 % 2 : Nat) * (-0x4000) -
              ((src.getD (spos + 1) 0 / 4 : Nat) + (src.getD (spos + 1 + 1) 0 : Nat) * 0x40)) -
              0x4000 < 0 ∨
              (dest.length : Int) ≤ (dest.length : Int) +
                ((src.getD spos 0 / 8 % 2 : Nat) * (-0x4000) -
                  ((src.getD (spos + 1) 0 / 4 : Nat) + (src.getD (spos + 1 + 1) 0 : Nat) * 0x40)) -
                0x4000)
          case pos =>
            rw [if_pos hlb, error_bind] at hok
            cases hok
          rw [if_neg hlb] at hok
          have hsp := tinySuffix_ok_spos _ _ _ _ _ hok
          rw [show spos + 1 + 1 + 1 - 2 = spos + 1 from by omega] at hsp
          rw [show spos + (1 + 2 - 2) = spos + 1 from by omega]
          congr 1
          omega
        · -- delta = 0: pad or dummy
          rw [if_neg hd] at hok
          by_cases hbtc : src.getD spos 0 % 8 ≠ 1
          case pos =>
            -- pad: excluded by the hypothesis
            exfalso
            apply hnp
            unfold is_pad_packet
            dsimp only
            rw [if_neg (fun hc => hce hc), if_neg (fun hc => hce hc)]
            simp only [Nat.add_zero]
            refine ⟨by omega, h20, ?_, hbtc⟩
            have := not_not.mp hd
            rw [show spos + 2 = spos + 1 + 1 from by omega]
            exact this
          rw [if_neg hbtc] at hok
          rw [if_neg (fun hc => hc (not_not.mp hbtc))] at hok
          have hsp := tinySuffix_ok_spos _ _ _ _ _ hok
          rw [show spos + 1 + 1 + 1 - 2 = spos + 1 from by omega] at hsp
          rw [show spos + (1 + 2 - 2) = spos + 1 from by omega]
          congr 1
          omega
      · -- extension length byte present (flag % 8 = 0)
        rw [if_neg hce] at hok
        rw [if_pos (not_not.mp hce)]
        by_cases h1 : spos + 1 < src.length
        case neg =>
          rw [read8, if_neg h1, error_bind] at hok
          cases hok
        rw [read8, if_pos h1] at hok
        simp only [pure_ok, ok_bind] at hok
        by_cases h2 : spos + 1 + 1 < src.length
        case neg =>
          rw [read8, if_neg h2, error_bind] at hok
          cases hok
        rw [read8, if_pos h2, ok_bind] at hok
        by_cases h3 : spos + 1 + 1 + 1 < src.length
        case neg =>
          rw [read8, if_neg h3, error_bind] at hok
          cases hok
        rw [read8, if_pos h3, ok_bind] at hok
        by_cases hd : ((src.getD spos 0 / 8 % 2 : Nat) * (-0x4000) -
            ((src.getD (spos + 1 + 1) 0 / 4 : Nat) +
              (src.getD (spos + 1 + 1 + 1) 0 : Nat) * 0x40) : Int) ≠ 0
        · -- real copy
          rw [if_pos hd] at hok
          rw [if_pos (show src.getD (spos + 1) 0 + 7 + 2 ≠ 1 by omega)] at hok
          by_cases hlb : ((dest.length : Int) + ((src.getD spos 0 / 8 % 2 : Nat) * (-0x4000) -
              ((src.getD (spos + 1 + 1) 0 / 4 : Nat) +
                (src.getD (spos + 1 + 1 + 1) 0 : Nat) * 0x40)) - 0x4000 < 0 ∨
              (dest.length : Int) ≤ (dest.length : Int) +
                ((src.getD spos 0 / 8 % 2 : Nat) * (-0x4000) -
                  ((src.getD (spos + 1 + 1) 0 / 4 : Nat) +
                    (src.getD (spos + 1 + 1 + 1) 0 : Nat) * 0x40)) - 0x4000)
          case pos =>
            rw [if_pos hlb, error_bind] at hok
            cases hok
          rw [if_neg hlb] at hok
          have hsp := tinySuffix_ok_spos _ _ _ _ _ hok
          rw [show spos + 1 + 1 + 1 + 1 - 2 = spos + 1 + 1 from by omega] at hsp
          rw [show spos + (2 + 2 - 2) = spos + 1 + 1 from by omega]
          congr 1
          omega
        · -- delta = 0 with length field at least 7: always a pad
          exfalso
          apply hnp
          unfold is_pad_packet
          dsimp only
          rw [if_pos (not_not.mp hce), if_pos (not_not.mp hce)]
          refine ⟨by omega, h20, ?_, by omega⟩
          have := not_not.mp hd
          rw [show spos + 2 + 1 = spos + 1 + 1 + 1 from by omega]
          exact this
    · -- 0x20 and up
      rw [if_neg h20] at hok
      rw [if_neg h20]
      by_cases h40 : src.getD spos 0 < 0x40
      · -- big match packet
        rw [if_pos h40] at hok
        rw [if_pos h40]
        by_cases hce : src.getD spos 0 % 32 ≠ 0
        · rw [if_pos hce] at hok
          rw [if_neg (fun hc => hce hc)]
          simp only [pure_ok, ok_bind] at hok
          by_cases h1 : spos + 1 < src.length
          case neg =>
            rw [read8, if_neg h1, error_bind] at hok
            cases hok
          rw [read8, if_pos h1, ok_bind] at hok
          by_cases h2 : spos + 1 + 1 < src.length
          case neg =>
            rw [read8, if_neg h2, error_bind] at hok
            cases hok
          rw [read8, if_pos h2, ok_bind] at hok
          rw [if_pos (show src.getD spos 0 % 32 + 2 ≠ 1 by omega)] at hok
          by_cases hlb : ((dest.length : Int) -
              ((src.getD (spos + 1) 0 / 4 : Nat) + (src.getD (spos + 1 + 1) 0 : Nat) * 0x40) -
              1 < 0 ∨
              (dest.length : Int) ≤ (dest.length : Int) -
                ((src.getD (spos + 1) 0 / 4 : Nat) + (src.getD (spos + 1 + 1) 0 : Nat) * 0x40) - 1)
          case pos =>
            rw [if_pos hlb, error_bind] at hok
            cases hok
          rw [if_neg hlb] at hok
          have hsp := tinySuffix_ok_spos _ _ _ _ _ hok
          rw [show spos + 1 + 1 + 1 - 2 = spos + 1 from by omega] at hsp
          rw [show spos + (1 + 2 - 2) = spos + 1 from by omega]
          congr 1
          omega
        · rw [if_neg hce] at hok
          rw [if_pos (not_not.mp hce)]
          by_cases h1 : spos + 1 < src.length
          case neg =>
            rw [read8, if_neg h1, error_bind] at hok
            cases hok
          rw [read8, if_pos h1] at hok
          simp only [pure_ok, ok_bind] at hok
          by_cases h2 : spos + 1 + 1 < src.length
          case neg =>
            rw [read8, if_neg h2, error_bind] at hok
            cases hok
          rw [read8, if_pos h2, ok_bind] at hok
          by_cases h3 : spos + 1 + 1 + 1 < src.length
          case neg =>
            rw [read8, if_neg h3, error_bind] at hok
            cases hok
          rw [read8, if_pos h3, ok_bind] at hok
          rw [if_pos (show src.getD (spos + 1) 0 + 0x1f + 2 ≠ 1 by omega)] at hok
          by_cases hlb : ((dest.length : Int) -
              ((src.getD (spos + 1 + 1) 0 / 4 : Nat) +
                (src.getD (spos + 1 + 1 + 1) 0 : Nat) * 0x40) - 1 < 0 ∨
              (dest.length : Int) ≤ (dest.length : Int) -
                ((src.getD (spos + 1 + 1) 0 / 4 : Nat) +
                  (src.getD (spos + 1 + 1 + 1) 0 : Nat) * 0x40) - 1)
          case pos =>
            rw [if_pos hlb, error_bind] at hok
            cases hok
          rw [if_neg hlb] at hok
          have hsp := tinySuffix_ok_spos _ _ _ _ _ hok
          rw [show spos + 1 + 1 + 1 + 1 - 2 = spos + 1 + 1 from by omega] at hsp
          rw [show spos + (2 + 2 - 2) = spos + 1 + 1 from by omega]
          congr 1
          omega
      · -- little match packet
        rw [if_neg h40] at hok
        rw [if_neg h40]
        by_cases h1 : spos + 1 < src.length
        case neg =>
          rw [read8, if_neg h1, error_bind] at hok
          cases hok
        rw [read8, if_pos h1, ok_bind] at hok
        simp only [pure_ok, ok_bind] at hok
        rw [if_pos (show src.getD spos 0 / 32 + 1 ≠ 1 by omega)] at hok
        by_cases hlb : ((dest.length : Int) - (src.getD (spos + 1) 0 : Nat) * 8 -
            (src.getD spos 0 / 4 % 8 : Nat) - 1 < 0 ∨
            (dest.length : Int) ≤ (dest.length : Int) - (src.getD (spos + 1) 0 : Nat) * 8 -
              (src.getD spos 0 / 4 % 8 : Nat) - 1)
        case pos =>
          rw [if_pos hlb, error_bind] at hok
          cases hok
        rw [if_neg hlb] at hok
        have hsp := tinySuffix_ok_spos _ _ _ _ _ hok
        rw [show spos + 1 + 1 - 2 = spos from by omega] at hsp
        rw [show spos + (2 - 2) = spos from by omega]
        congr 1
        omega
/-- C2 witness: a little-match packet with a one-byte tiny-literal
suffix; the decoder consumes 3 bytes and so does the helper. -/
theorem C2_packet_length_agreement_witness :
    get_wad_packet_size (fun k => ([0x45, 0x01, 7, 7] : List Nat).getD (0 + k) 0)
      (([0x45, 0x01, 7, 7] : List Nat).length - 0) = .ok (3 - 0) :=
  C2_packet_length_agreement [0x45, 0x01, 7, 7] 0 (List.replicate 10 5) 3
    (List.replicate 10 5 ++ [5, 5, 5, 7]) (by decide) (by decide)

/-- C3.  For every source and thread count, when `compress_wad` returns
a stream `w`, its 32-bit little-endian `total_size` field at bytes 3-6
equals the length of `w` (representable lengths: the field is a
`uint32_t`), and `w` is produced by patching that field into the fully
stitched stream as the last step — `w = writeU32LE body 3 body.length`
for the stitched `body` containing header, packets, pads and dummies. -/
theorem C3_header_total_size (src : Nat → Nat) (src_len thread_count : Nat) (w : List Nat)
    (hok : compress_wad src src_len thread_count = .ok w) (h32 : w.length < 2 ^ 32) :
    readU32LE w 3 = w.length ∧ ∃ body, w = writeU32LE body 3 body.length := by
  unfold compress_wad at hok
  by_cases htc : thread_count = 0
  · rw [if_pos htc] at hok
    cases hok
  · rw [if_neg htc] at hok
    obtain ⟨d, hd, rfl⟩ :=
      bind_pure_ok_shape _ (fun dest => writeU32LE dest 3 dest.length) w hok
    have h16 : 16 ≤ d.length := by
      have := stitch_blocks_length_le _ true WAD_HEADER d hd
      simpa [WAD_HEADER] using this
    rw [writeU32LE_length] at h32
    refine ⟨?_, d, rfl⟩
    rw [writeU32LE_length]
    exact readU32LE_writeU32LE d d.length (by omega) h32

/-- C3 witness: the compressed single-byte stream has `total_size` 20,
its own length. -/
theorem C3_header_total_size_witness :
    readU32LE singleLiteralOutput 3 = singleLiteralOutput.length ∧
      ∃ body, singleLiteralOutput = writeU32LE body 3 body.length :=
  C3_header_total_size (fun i => ([0xAA] : List Nat).getD i 0) 1 1 singleLiteralOutput
    (by decide) (by decide)

/-- C4.  During decompression, immediately after copying the bytes of a
literal packet, if a next source byte exists and is below 0x10 the
decoder fails with the double-literal error; in particular the
hand-crafted stream `c4Stream` with two adjacent literal packets fails
that way, and an error is all that is returned. -/
theorem C4_double_literal :
    (∀ (src : List Nat) (spos : Nat) (dest : List Nat),
      spos < src.length → src.getD spos 0 < 0x10 →
      spos + (if src.getD spos 0 ≠ 0 then 1 else 2) +
          (if src.getD spos 0 ≠ 0 then src.getD spos 0 + 3 else src.getD (spos + 1) 0 + 18) <
        src.length →
      src.getD (spos + (if src.getD spos 0 ≠ 0 then 1 else 2) +
          (if src.getD spos 0 ≠ 0 then src.getD spos 0 + 3 else src.getD (spos + 1) 0 + 18)) 0 <
        0x10 →
      decompress_wad_step src spos dest = .error .doubleLiteral) ∧
    decompress_wad c4Stream = .error .doubleLiteral := by
  constructor
  · intro src spos dest h1 h2 h3 h4
    unfold decompress_wad_step
    rw [read8, if_pos h1]
    by_cases h0 : src.getD spos 0 ≠ 0
    · simp only [if_pos h0] at h3 h4
      simp only [ok_bind]
      rw [if_pos h2, if_pos h0]
      simp only [pure_ok, ok_bind]
      rw [readBytes, if_pos (by omega)]
      simp only [ok_bind]
      rw [if_pos (⟨by omega, h4⟩ :
        spos + 1 + (src.getD spos 0 + 3) < src.length ∧
          src.getD (spos + 1 + (src.getD spos 0 + 3)) 0 < 0x10)]
    · simp only [if_neg h0] at h3 h4
      simp only [ok_bind]
      rw [if_pos h2, if_neg h0]
      rw [read8, if_pos (by omega)]
      simp only [pure_ok, ok_bind]
      rw [readBytes, if_pos (by omega)]
      simp only [ok_bind]
      rw [if_pos (⟨by omega, h4⟩ :
        spos + 1 + 1 + (src.getD (spos + 1) 0 + 18) < src.length ∧
          src.getD (spos + 1 + 1 + (src.getD (spos + 1) 0 + 18)) 0 < 0x10)]
  · decide

/-- C4 witness: the universal part applied to the first literal packet of
the hand-crafted stream. -/
theorem C4_double_literal_witness :
    decompress_wad_step c4Stream 16 [] = .error .doubleLiteral :=
  C4_double_literal.1 c4Stream 16 [] (by decide) (by decide) (by decide) (by decide)

/-- C5 (counterexample).  The claim's rule "if the computed lookback
equals `dst.pos` the decoder treats the packet as a pad, advances
`src.pos` until `src.pos % 0x1000 == 0x10` and emits no output bytes" is
false for the dummy packet: on `0x11 0x01 0x00 0xAA` (flag 0x11 in
0x10-0x1F, position bytes making the lookback equal `dst.pos`) the
decoder does not pad — it consumes 4 bytes and emits the tiny-literal
byte 0xAA, where the claimed pad behaviour would leave the output empty
and skip the source position to 16. -/
theorem C5_pad_rule_counterexample :
    decompress_wad_step [0x11, 0x01, 0x00, 0xAA] 0 [] = .ok (4, [0xAA]) ∧
      (.ok (4, [0xAA]) : Except WadError (Nat × List Nat)) ≠
        .ok (3 + skipToPadBoundary 3, []) :=
  ⟨by decide, by decide⟩

/-- C5 (amended).  For a packet with flag byte in 0x10-0x1F, with `L` the
raw length field (`flag & 7`, or the next byte + 7 when that is zero) and
`delta` the signed offset computed from the two position bytes: if
`delta = 0` (i.e. the lookback equals `dst.pos`) and `L ≠ 1` the decoder
treats the packet as a pad, advancing `src.pos` until
`src.pos % 0x1000 = 0x10` and emitting nothing; if `delta = 0` and
`L = 1` (the dummy packet) it emits no copy but still processes the
tiny-literal suffix; and if `delta ≠ 0` it adds 2 to `L`, subtracts
0x4000 from the lookback and performs the copy (followed by the
tiny-literal suffix), failing with `BadLookback` when the adjusted
lookback leaves the destination. -/
theorem C5_pad_rule_amended (src : List Nat) (spos : Nat) (dest : List Nat)
    (flag e btc b0 b1 : Nat) (delta : Int)
    (hflag : src.getD spos 0 = flag)
    (h10 : 0x10 ≤ flag) (h20 : flag < 0x20)
    (he : e = if flag % 8 = 0 then 1 else 0)
    (hbtc : btc = if flag % 8 = 0 then src.getD (spos + 1) 0 + 7 else flag % 8)
    (hb0 : src.getD (spos + 1 + e) 0 = b0)
    (hb1 : src.getD (spos + 2 + e) 0 = b1)
    (hlen : spos + 3 + e ≤ src.length)
    (hdelta : delta = (flag / 8 % 2 : Nat) * (-0x4000) - ((b0 / 4 : Nat) + (b1 : Nat) * 0x40)) :
    (delta = 0 ∧ btc ≠ 1 →
      decompress_wad_step src spos dest =
        .ok (spos + 3 + e + skipToPadBoundary (spos + 3 + e), dest)) ∧
    (delta = 0 ∧ btc = 1 →
      decompress_wad_step src spos dest = tinySuffix src (spos + 3 + e) dest) ∧
    (delta ≠ 0 →
      decompress_wad_step src spos dest =
        if (dest.length : Int) + delta - 0x4000 < 0 ∨
            (dest.length : Int) ≤ (dest.length : Int) + delta - 0x4000 then
          .error .badLookback
        else
          tinySuffix src (spos + 3 + e)
            (copyLookback dest ((dest.length : Int) + delta - 0x4000).toNat (btc + 2))) := by
  unfold decompress_wad_step
  rw [read8, if_pos (by omega : spos < src.length), hflag]
  simp only [ok_bind]
  rw [if_neg (by omega : ¬ flag < 0x10), if_pos h20]
  by_cases hc : flag % 8 = 0
  · rw [if_pos hc] at he hbtc
    subst he hbtc
    rw [if_neg (by omega : ¬ flag % 8 ≠ 0)]
    rw [read8, if_pos (by omega : spos + 1 < src.length)]
    simp only [pure_ok, ok_bind]
    rw [read8, if_pos (by omega : spos + 1 + 1 < src.length)]
    simp only [ok_bind]
    rw [read8, if_pos (by omega : spos + 1 + 1 + 1 < src.length)]
    simp only [ok_bind]
    have hb1a : src.getD (spos + 1 + 1 + 1) 0 = b1 := by
      rw [show spos + 1 + 1 + 1 = spos + 2 + 1 from by omega]
      exact hb1
    rw [hb0, hb1a, ← hdelta]
    rw [show spos + 1 + 1 + 2 = spos + 3 + 1 from by omega]
    refine ⟨fun h => ?_, fun h => ?_, fun h => ?_⟩
    · rw [if_neg (by simp [h.1]), if_pos h.2]
    · exact absurd h.2 (by omega)
    · rw [if_pos h, if_pos (by omega : src.getD (spos + 1) 0 + 7 + 2 ≠ 1)]
      by_cases hbad : (dest.length : Int) + delta - 0x4000 < 0 ∨
          (dest.length : Int) ≤ (dest.length : Int) + delta - 0x4000
      · rw [if_pos hbad, if_pos hbad, error_bind]
      · rw [if_neg hbad, if_neg hbad]
  · rw [if_neg hc] at he hbtc
    subst he hbtc
    simp only [Nat.add_zero] at hb0 hb1 hlen ⊢
    rw [if_pos hc]
    simp only [pure_ok, ok_bind]
    rw [read8, if_pos (by omega : spos + 1 < src.length)]
    simp only [ok_bind]
    rw [read8, if_pos (by omega : spos + 1 + 1 < src.length)]
    simp only [ok_bind]
    have hb1a : src.getD (spos + 1 + 1) 0 = b1 := by
      rw [show spos + 1 + 1 = spos + 2 from by omega]
      exact hb1
    rw [hb0, hb1a, ← hdelta]
    rw [show spos + 1 + 2 = spos + 3 from by omega]
    refine ⟨fun h => ?_, fun h => ?_, fun h => ?_⟩
    · rw [if_neg (by simp [h.1]), if_pos h.2]
    · rw [if_neg (by simp [h.1]), if_neg (by omega : ¬ flag % 8 ≠ 1)]
      rw [if_neg (by omega : ¬ flag % 8 ≠ 1)]
    · rw [if_pos h, if_pos (by omega : flag % 8 + 2 ≠ 1)]
      by_cases hbad : (dest.length : Int) + delta - 0x4000 < 0 ∨
          (dest.length : Int) ≤ (dest.length : Int) + delta - 0x4000
      · rw [if_pos hbad, if_pos hbad, error_bind]
      · rw [if_neg hbad, if_neg hbad]

/-- C5 witness: the amended rule applied to the pad packet `0x12 0x00 0x00`
at the start of a stream: the decoder skips to source position 16 and
emits nothing. -/
theorem C5_pad_rule_amended_witness :
    decompress_wad_step [0x12, 0x00, 0x00] 0 [] = .ok (16, []) := by
  have h := C5_pad_rule_amended [0x12, 0x00, 0x00] 0 [] 0x12 0 2 0 0 0
    (by decide) (by omega) (by omega) (by decide) (by decide) (by decide) (by decide)
    (by decide) (by decide)
  rw [h.1 ⟨rfl, by omega⟩]
  decide

set_option maxRecDepth 2000 in
/-- C6 (counterexample).  `compress([0xAA], 1)` does not produce the
literal bytes `0x11 0x00 0x00` followed by `0xAA` after the header: the
tiny-literal length 1 is OR-ed into the dummy packet's second byte, so
byte 17 of the output is `0x01`, not `0x00`. -/
theorem C6_single_literal_counterexample :
    compress_wad_list [0xAA] 1 ≠
      .ok [0x57, 0x41, 0x44, 0x14, 0x00, 0x00, 0x00, 0x57, 0x52, 0x45, 0x4e, 0x43, 0x48, 0x30,
        0x31, 0x30, 0x11, 0x00, 0x00, 0xAA] := by
  decide

set_option maxRecDepth 2000 in
/-- C6 (amended).  `compress([0xAA], 1)` produces exactly the 16-byte
header followed by the dummy packet `0x11 0x01 0x00` — its second byte
carrying the tiny-literal length 1 — and the raw byte `0xAA`; the
`total_size` field (bytes 3-6) reads 20, the total output length. -/
theorem C6_single_literal_amended :
    compress_wad_list [0xAA] 1 = .ok singleLiteralOutput ∧
      readU32LE singleLiteralOutput 3 = 20 ∧ singleLiteralOutput.length = 20 := by
  refine ⟨by decide, by decide, by decide⟩

/-- C7 (counterexample).  In the non-end-of-buffer mode the match finder
ignores `e - p` when no match is found: on the match-free source
`noMatchByte` with `p = 0`, `e = 260` it returns `match_size = 0` but
`literal_size = 273`, not `min (MAX_LITERAL, e - p) = 260` as the claim
states for both modes. -/
theorem C7_no_match_counterexample :
    (find_match false noMatchByte 0 260).match_size = 0 ∧
      (find_match false noMatchByte 0 260).literal_size ≠
        min MAX_LITERAL_SIZE (260 - 0) := by
  rw [find_match_noMatchByte]
  exact ⟨rfl, by decide⟩

/-- C7 (amended).  If `find_match` finds no match of length at least 3
within the literal budget (equivalently, it returns `match_size = 0`,
since only matches of length at least 3 are ever recorded), then in the
end-of-buffer mode `literal_size = min (MAX_LITERAL, e - p)`, and in the
non-end-of-buffer mode `literal_size = MAX_LITERAL` — the latter mode
ignores the end position. -/
theorem C7_no_match_literal_size (end_of_buffer : Bool) (src : Nat → Nat) (src_pos src_end : Nat)
    (h : (find_match end_of_buffer src src_pos src_end).match_size = 0) :
    (find_match end_of_buffer src src_pos src_end).literal_size =
      if end_of_buffer then min MAX_LITERAL_SIZE (src_end - src_pos) else MAX_LITERAL_SIZE := by
  unfold find_match at h ⊢
  cases end_of_buffer
  · simpa using find_match_loop_no_match false src src_pos src_end _ _ _ _ _ (by simpa using h)
  · simpa using find_match_loop_no_match true src src_pos src_end _ _ _ _ _ (by simpa using h)

/-- C7 witness: the amended statement at the end-of-buffer search on a
two-byte slice, where the budget is clamped to `e - p = 2`. -/
theorem C7_no_match_literal_size_witness :
    (find_match true noMatchByte 0 2).match_size = 0 ∧
      (find_match true noMatchByte 0 2).literal_size =
        if true then min MAX_LITERAL_SIZE (2 - 0) else MAX_LITERAL_SIZE :=
  ⟨by decide, C7_no_match_literal_size true noMatchByte 0 2 (by decide)⟩

/-- C8.  `compress_wad` performs no `thread_count < 1` validation: with
`thread_count = 0` the C++ falls into the multi-thread branch and
evaluates `total_size % min_block_size` with `min_block_size = 0` —
division by zero (a crash), modelled here as the dedicated
`divisionByZero` error — instead of surfacing an `InvalidParameter`
error as the spec requires. -/
theorem C8_thread_count_zero_division_by_zero (src : Nat → Nat) (src_len : Nat) :
    compress_wad src src_len 0 = .error .divisionByZero := by
  rfl

/-- C10.  `get_wad_packet_size`, whenever it returns, returns at least 2
whatever the flag byte (the source pointer is modelled as a total
function, so any byte array with at least one byte remaining is an
instance), and consequently the stitcher's per-block walk — which
advances its position by that amount each iteration — never exhausts
fuel exceeding the block length: it terminates on every finite
intermediate block. -/
theorem C10_packet_size_progress :
    (∀ (src : Nat → Nat) (bytes_left n : Nat),
      get_wad_packet_size src bytes_left = .ok n → 2 ≤ n) ∧
    (∀ (intermediate : List Nat) (not_first : Bool) (fuel pos : Nat) (dest : List Nat),
      intermediate.length - pos < fuel →
      stitch_block intermediate not_first fuel pos dest ≠ .error .outOfFuel) :=
  ⟨gwps_ok_ge_two, stitch_block_no_fuel_exhaustion⟩

/-- C10 witness: the long-literal packet with a zero length byte is 20
bytes, and the walk over a single dummy packet terminates within its
fuel. -/
theorem C10_packet_size_progress_witness :
    (2 : Nat) ≤ 20 ∧
      stitch_block [0x11, 0, 0] false 4 0 WAD_HEADER ≠ .error .outOfFuel :=
  ⟨C10_packet_size_progress.1 (fun _ => 0) 1 20 (by decide),
   C10_packet_size_progress.2 [0x11, 0, 0] false 4 0 WAD_HEADER (by decide)⟩

/-- C9.  Every packet with flag byte in `0x10..0x1f` appearing in the
output of `compress_wad` is a dummy (`0x11, t, 0` with `t ≤ 3` the
tiny-literal count OR-ed into the second-to-last packet byte, both
position bytes otherwise zero) or a pad (`0x12, 0, 0` plus filler); the
encoder never encodes a real back-reference in that family — every match
packet it emits has a flag byte ≥ 0x20.  Formally: every successful
compression output splits after its 16-byte patched header into chunks,
each a literal, dummy, pad or match chunk (match flags all ≥ 0x20), and
every chunk whose flag byte lies in `0x10..0x1f` is a dummy or a pad. -/
theorem C9_no_back_reference_in_0x10_family (src : Nat → Nat)
    (src_len thread_count : Nat) (w : List Nat)
    (hok : compress_wad src src_len thread_count = .ok w) :
    ∃ chunks : List (List Nat),
      w = writeU32LE WAD_HEADER 3 w.length ++ chunks.flatten ∧
      (∀ c ∈ chunks, LiteralChunk c ∨ DummyChunk c ∨ PadChunk c ∨ MatchChunk c) ∧
      (∀ c ∈ chunks, 0x10 ≤ c.getD 0 0 → c.getD 0 0 < 0x20 → DummyChunk c ∨ PadChunk c) := by
  unfold compress_wad at hok
  by_cases htc : thread_count = 0
  · rw [if_pos htc] at hok
    cases hok
  · rw [if_neg htc] at hok
    dsimp only at hok
    obtain ⟨d, hst, hw⟩ := bind_pure_ok_shape _ _ _ hok
    split at hst
    · refine compress_output_chunks _ _ _ ?_ hst hw
      intro b hb
      rw [List.mem_singleton] at hb
      subst hb
      exact compress_wad_intermediate_bufOK src 0 src_len
    · refine compress_output_chunks _ _ _ ?_ hst hw
      intro b hb
      rw [List.mem_map] at hb
      obtain ⟨i, _, rfl⟩ := hb
      exact compress_wad_intermediate_bufOK src _ _

set_option maxRecDepth 2000 in
/-- C9 witness: the theorem applied to the concrete compression of the
single byte `0xAA` with one thread. -/
theorem C9_no_back_reference_witness :
    ∃ chunks : List (List Nat),
      singleLiteralOutput = writeU32LE WAD_HEADER 3 singleLiteralOutput.length ++
        chunks.flatten ∧
      (∀ c ∈ chunks, LiteralChunk c ∨ DummyChunk c ∨ PadChunk c ∨ MatchChunk c) ∧
      (∀ c ∈ chunks, 0x10 ≤ c.getD 0 0 → c.getD 0 0 < 0x20 → DummyChunk c ∨ PadChunk c) :=
  C9_no_back_reference_in_0x10_family (fun i => [0xAA].getD i 0) 1 1 singleLiteralOutput
    (by decide)

end Wad
